import Mathlib

/-!
Verification development for the medusa-plugin-strapi synchronization service
(`src/services/update-strapi.ts`).  The file under `src/services` concatenates
several revisions of the service; the embedding below models the revision built
on `TransactionBaseService` (the one defining `strapiSendDataLayer`,
`strapiLoginSendDatalayer`, `checkStrapiHealth`, `intializeServer`, …) in
namespace `StrapiSync`, and the oldest revision's `strapiSend` retry path in
namespace `StrapiLegacy`.

Modelling conventions:
* JavaScript objects are association lists of `String × JVal` (a JS object has
  no duplicate keys; well-formedness is an explicit hypothesis where needed).
* `Date.now()` is a `Nat` millisecond clock threaded through the functions; it
  advances only across `sleep(1000)` in `waitForHealth`.
* The HTTP client (axios) is an oracle: each remote endpoint is a function from
  the call index to the response.  With axios's default `validateStatus`, a
  resolved response has a 2xx status; a rejection (non-2xx or network error) is
  the oracle returning `none`.
* A thrown JS exception is `Out.err`; an execution that blocks forever in
  `waitForHealth` is `Out.div` (the model gives the polling loop fuel).
-/

namespace StrapiSync

/-- A JSON/JS value tree.  `undef` stands for JavaScript `undefined` (it can be
stored into an object field, unlike a missing key). -/
inductive JVal where
  | str (s : String)
  | num (n : Int)
  | bool (b : Bool)
  | null
  | undef
  | obj (kvs : List (String × JVal))
  | arr (xs : List JVal)

namespace JVal

/-- JS `instanceof Object`: objects and arrays. -/
def isObject : JVal → Bool
  | .obj _ => true
  | .arr _ => true
  | _ => false

end JVal

/-- First binding of a key in an object's association list (JS property read;
a real JS object has each key at most once). -/
def jGet (kvs : List (String × JVal)) (k : String) : Option JVal :=
  (kvs.find? (fun p => p.1 = k)).map (fun p => p.2)

/-- JS property write: replace the binding in place when the key exists,
otherwise append the new binding at the end (JS key-insertion order). -/
def objSet (kvs : List (String × JVal)) (k : String) (v : JVal) :
    List (String × JVal) :=
  if (jGet kvs k).isSome then
    kvs.map (fun p => if p.1 = k then (k, v) else p)
  else
    kvs ++ [(k, v)]

/-- JS `delete o[k]`. -/
def objDel (kvs : List (String × JVal)) (k : String) : List (String × JVal) :=
  kvs.filter (fun p => ¬(p.1 = k))

/-- The `for (const key of keys)` loop over the snapshot of keys, mutating the
object (`rec` is the recursive translation applied to nested values): a key
bound to an object/array is recursed into (in place); a key `"id"` bound to a
non-object is moved to `"medusa_id"` (property write, then delete); anything
else is untouched.  A key deleted by an earlier iteration looks up to nothing
and the iteration does nothing. -/
def transLoop (rec : JVal → JVal) :
    List String → List (String × JVal) → List (String × JVal)
  | [], kvs => kvs
  | k :: rest, kvs =>
    match jGet kvs k with
    | none => transLoop rec rest kvs
    | some v =>
      if v.isObject then
        transLoop rec rest (objSet kvs k (rec v))
      else if k = "id" then
        transLoop rec rest (objDel (objSet kvs "medusa_id" v) "id")
      else
        transLoop rec rest kvs

/-- Array branch: elements that are objects are translated in place
(`Object.keys` on an array yields the indices, none of which is `"id"`). -/
def transArr (rec : JVal → JVal) : List JVal → List JVal
  | [] => []
  | x :: xs => (if x.isObject then rec x else x) :: transArr rec xs

/-- `translateIdsToMedusaIds` with fuel bounding the nesting depth the
execution may descend through.  Source (data-layer revision):

    translateIdsToMedusaIds(dataToSend) {
        const keys = Object.keys(dataToSend);
        for (const key of keys) {
            if (dataToSend[key] instanceof Object) {
                this.translateIdsToMedusaIds(dataToSend[key]);
            } else if (key == "id") {
                dataToSend["medusa_id"] = dataToSend[key];
                delete dataToSend[key];
            }
        }
        return dataToSend;
    }
-/
def transFuel : Nat → JVal → JVal
  | 0, v => v
  | n + 1, .obj kvs => .obj (transLoop (transFuel n) (kvs.map (fun p => p.1)) kvs)
  | n + 1, .arr xs => .arr (transArr (transFuel n) xs)
  | _ + 1, v => v

mutual

/-- Executable size of a value, used as translation fuel. -/
def jSize : JVal → Nat
  | .obj kvs => 1 + jSizePairs kvs
  | .arr xs => 1 + jSizeList xs
  | _ => 1

/-- Size of an array's elements. -/
def jSizeList : List JVal → Nat
  | [] => 0
  | x :: xs => jSize x + jSizeList xs

/-- Size of an object's bindings. -/
def jSizePairs : List (String × JVal) → Nat
  | [] => 0
  | p :: rest => jSize p.2 + jSizePairs rest

end

/-- `translateIdsToMedusaIds` of the data-layer revision: the fuelled loop with
fuel `jSize v`, which bounds the nesting depth the JS execution descends
through (each recursion step enters a strictly smaller subvalue). -/
def translateIdsToMedusaIds (v : JVal) : JVal :=
  transFuel (jSize v) v

/-- The body `strapiSendDataLayer` hands to the transport for a payload `data`:

    dataToSend = _.cloneDeep(data);
    dataToSend = this.translateIdsToMedusaIds(dataToSend);
    dataToSend["medusa_id"] = data.id;
    delete dataToSend.id;

(`cloneDeep` is the identity in this pure model; reading the absent property
`data.id` yields JS `undefined`.) -/
def sendBody (data : JVal) : JVal :=
  match translateIdsToMedusaIds data with
  | .obj kvs =>
    .obj (objDel (objSet kvs "medusa_id" ((jGet' data "id").getD .undef)) "id")
  | v => v
where
  /-- Property read `data.id` on a possibly non-object value. -/
  jGet' : JVal → String → Option JVal
  | .obj kvs, k => jGet kvs k
  | _, _ => none

/-- The net effect of one loop iteration of `translateIdsToMedusaIds` on a
single binding of a well-formed object: a binding with an object value is
translated in place, the scalar `"id"` binding is removed (it reappears as
the trailing `"medusa_id"` binding, see `tApp`), anything else is kept
untouched. -/
def tStep (rec : JVal → JVal) (p : String × JVal) : Option (String × JVal) :=
  if p.2.isObject then some (p.1, rec p.2)
  else if p.1 = "id" then none
  else some p

/-- The bindings the loop appends at the end of the object: each scalar
`"id"` binding's value rebound under `"medusa_id"` (a well-formed object has
at most one). -/
def tApp (kvs : List (String × JVal)) : List (String × JVal) :=
  kvs.filterMap (fun p =>
    if p.2.isObject then none
    else if p.1 = "id" then some ("medusa_id", p.2)
    else none)

mutual

/-- Modelled from the spec: "ID remapping: domain \"id\" → remote
\"medusa_id\" … recursively", "renamed from the domain \"id\" field".  Renames
every `"id"` key to `"medusa_id"` in place, at every nesting level. -/
def specRenameIds : JVal → JVal
  | .obj kvs => .obj (specRenamePairs kvs)
  | .arr xs => .arr (specRenameList xs)
  | v => v

/-- Spec-side rename of an array's elements. -/
def specRenameList : List JVal → List JVal
  | [] => []
  | x :: xs => specRenameIds x :: specRenameList xs

/-- Spec-side rename of an object's bindings. -/
def specRenamePairs : List (String × JVal) → List (String × JVal)
  | [] => []
  | (k, v) :: rest =>
    ((if k = "id" then "medusa_id" else k), specRenameIds v) :: specRenamePairs rest

end

mutual

/-- Does a key occur anywhere in the tree (any nesting level)? -/
def hasKeyDeep (key : String) : JVal → Bool
  | .obj kvs => hasKeyDeepPairs key kvs
  | .arr xs => hasKeyDeepList key xs
  | _ => false

/-- Key occurrence inside an array. -/
def hasKeyDeepList (key : String) : List JVal → Bool
  | [] => false
  | x :: xs => hasKeyDeep key x || hasKeyDeepList key xs

/-- Key occurrence inside an object's bindings. -/
def hasKeyDeepPairs (key : String) : List (String × JVal) → Bool
  | [] => false
  | (k, v) :: rest => k = key || hasKeyDeep key v || hasKeyDeepPairs key rest

end

/-- Pairwise-distinct key list (a JS object cannot bind a key twice). -/
def keysDistinct : List String → Bool
  | [] => true
  | k :: rest => !rest.contains k && keysDistinct rest

mutual

/-- Well-formedness of a payload handed to the data layer, at every nesting
level: (a) each object's keys are pairwise distinct (true of any value that
was a JS object); (b) no object already binds `"medusa_id"` (the remote
foreign-key field is introduced by the translation, not by the domain
entity); (c) every `"id"` binding is a non-object (domain ids are scalars). -/
def payloadOk : JVal → Bool
  | .obj kvs =>
    keysDistinct (kvs.map (fun p => p.1)) &&
    !(kvs.map (fun p => p.1)).contains "medusa_id" &&
    payloadOkPairs kvs
  | .arr xs => payloadOkList xs
  | _ => true

/-- Well-formedness of an array's elements. -/
def payloadOkList : List JVal → Bool
  | [] => true
  | x :: xs => payloadOk x && payloadOkList xs

/-- Well-formedness of an object's bindings. -/
def payloadOkPairs : List (String × JVal) → Bool
  | [] => true
  | (k, v) :: rest =>
    (!(k = "id" && v.isObject)) && payloadOk v && payloadOkPairs rest

end

/-- Pointwise equivalence of arrays, for `rec` the element equivalence. -/
def jEqvListF (rec : JVal → JVal → Bool) : List JVal → List JVal → Bool
  | [], [] => true
  | x :: xs, y :: ys => rec x y && jEqvListF rec xs ys
  | _, _ => false

/-- Fuelled order-insensitive JSON equality: objects are compared as finite
maps (same key set, pointwise-equivalent values), arrays pointwise, atoms by
equality.  Object key order is not semantic content of a JSON document. -/
def jEqvF : Nat → JVal → JVal → Bool
  | 0, _, _ => false
  | n + 1, .obj l1, .obj l2 =>
    (l1.map (fun p => p.1)).all (fun k =>
      match jGet l1 k, jGet l2 k with
      | some v1, some v2 => jEqvF n v1 v2
      | _, _ => false) &&
    (l2.map (fun p => p.1)).all (fun k => (jGet l1 k).isSome)
  | n + 1, .arr xs, .arr ys => jEqvListF (jEqvF n) xs ys
  | _ + 1, .str a, .str b => a = b
  | _ + 1, .num a, .num b => a = b
  | _ + 1, .bool a, .bool b => a = b
  | _ + 1, .null, .null => true
  | _ + 1, .undef, .undef => true
  | _ + 1, _, _ => false

/-- Order-insensitive JSON equivalence with enough fuel for both sides. -/
def jEqv (a b : JVal) : Bool :=
  jEqvF (jSize a + jSize b) a b

/-! ## The service state, oracles and wire trace -/

/-- HTTP method as used by the service (`Method` strings of the source,
case-normalised: the code compares `method != "POST" && method != "post"`
and always passes one of these four). -/
inductive Meth where
  | get
  | post
  | put
  | delete
deriving DecidableEq, Repr

/-- A cached credential: `this.userTokens[email] = { token, time, user }`. -/
structure UserCreds where
  token : String
  time : Nat
  user : String
deriving DecidableEq, Repr

/-- In-memory service state plus the module-level mutable bindings
(`strapiRetryDelay`) and static fields (`isHealthy`, `lastHealthCheckTime`).
`redis` models the ignore store as key ↦ absolute expiry instant in ms (a key
set with `EX t` at instant `s` expires at `s + t*1000`).  A JS field that is
`undefined` until first assigned is modelled by `""`/`0`/`none` as noted. -/
structure SyncState where
  userTokens : List (String × UserCreds) := []
  strapiRetryDelay : Option Nat := none
  redis : List (String × Nat) := []
  strapiSuperAdminAuthToken : String := ""
  userAdminProfile : String := ""
  lastAdminLoginAttemptTime : Nat := 0
  isHealthy : Bool := false
  lastHealthCheckTime : Nat := 0

/-- One outbound wire call (what axios is asked to send). -/
inductive Ev where
  /-- Entry CRUD: `method <base>/api/<type>[/<id>]`, bearer `token`, JSON
  body `\x7b data: body \x7d` when a body is passed. -/
  | entry (m : Meth) (type_ : String) (id : Option String) (token : String)
      (body : Option JVal)
  /-- `POST /api/auth/local` for `email`. -/
  | login (email : String)
  /-- `POST /admin/login`. -/
  | adminLogin
  /-- `method /admin/<path>` (admin management, e.g. `register-admin`). -/
  | adminPost (type_ : String)
  /-- `POST /strapi-plugin-medusajs/create-medusa-user`. -/
  | registerMedusaUser
  /-- `POST /strapi-plugin-medusajs/synchronise-medusa-tables`. -/
  | sync
  /-- `HEAD /_health`. -/
  | health

/-- Outcome of a modelled `async` computation: a value, a thrown JS error, or
an execution blocked forever inside `waitForHealth` (whose polling loop the
model bounds with fuel). -/
inductive Out (α : Type) where
  | ok (a : α)
  | err
  | div

/-- Response to an entry CRUD call: a resolved axios response (2xx under the
default `validateStatus`) carrying a JSON body. -/
structure EntryResp where
  status : Nat
  body : JVal

/-- Response to `POST /api/auth/local`: `res.data.jwt` (absent when the
endpoint answers 2xx without a jwt) and `res.data.user`. -/
structure LoginResp where
  jwt : Option String
  user : String

/-- Remote behaviour: for each endpoint, the response to its `n`-th call
(counted per endpoint).  `none` is an axios rejection (non-2xx status or
network failure); for `health` the value is the raw status of a resolved
`HEAD /_health`. -/
structure Remote where
  entry : Nat → Option EntryResp := fun _ => none
  login : Nat → Option LoginResp := fun _ => none
  adminLogin : Nat → Option (String × String) := fun _ => none
  adminPost : Nat → Option Unit := fun _ => none
  regUser : Nat → Option Unit := fun _ => none
  syncCall : Nat → Option Nat := fun _ => none
  health : Nat → Option Nat := fun _ => none
  prodRetrieve : String → Option JVal := fun _ => none
  variantRetrieve : String → Option JVal := fun _ => none
  regionRetrieve : String → Option JVal := fun _ => none

/-- Per-endpoint call cursors (how many calls each endpoint has served). -/
structure Cnt where
  e : Nat := 0
  l : Nat := 0
  al : Nat := 0
  ap : Nat := 0
  ru : Nat := 0
  sy : Nat := 0
  h : Nat := 0

/-- The world around the service: the remote's behaviour, the call cursors,
the `STRAPI_HEALTH_CHECK_INTERVAL` environment value (as parsed by
`parseInt`), the plugin options the modelled paths read, and the fuel each
`waitForHealth` polling loop gets. -/
structure World where
  rem : Remote
  cnt : Cnt := {}
  envHealthInterval : Option Int := none
  ignoreThreshold : Nat := 0
  defaultEmail : String := "default@medusa.com"
  fuel : Nat := 1

/-- Result of a modelled async computation: outcome, world (cursors moved),
service state, clock, and the wire calls this computation itself issued. -/
structure R (α : Type) where
  out : Out α
  w : World
  st : SyncState
  now : Nat
  tr : List Ev

/-! ## Health monitor -/

/-- Axios resolution of `HEAD /_health` under the default `validateStatus`:
a raw status resolves iff it is in the 2xx family, anything else (or a
network failure) rejects. -/
def axiosHeadResolves : Option Nat → Option Nat
  | some s => if 200 ≤ s ∧ s < 300 then some s else none
  | none => none

/-- `executeStrapiHealthCheck`.  The source loops
`while (timeOut-- > 0) { response = await axios.head(url); if (response &&
response?.status) break; await sleep(1000); }`; a resolved axios response
always has a truthy 2xx status, so the loop exits on its first iteration,
and a rejection aborts the whole `try` block — the loop never runs twice.
On a response: `lastHealthCheckTime = Date.now()` and
`isHealthy = response.status < 300`; on a rejection (catch): `isHealthy =
false` and the timestamp is *not* updated; with a non-positive initial
`timeOut` the loop is skipped, the timestamp is updated and `isHealthy =
false`. -/
def executeStrapiHealthCheck (w : World) (st : SyncState) (now : Nat) :
    Bool × World × SyncState × List Ev :=
  let timeOutInit : Int := w.envHealthInterval.getD 120000
  if 0 < timeOutInit then
    let raw := w.rem.health w.cnt.h
    let w := { w with cnt := { w.cnt with h := w.cnt.h + 1 } }
    match axiosHeadResolves raw with
    | some s =>
      let st := { st with lastHealthCheckTime := now, isHealthy := s < 300 }
      (st.isHealthy, w, st, [.health])
    | none => (false, w, { st with isHealthy := false }, [.health])
  else
    (false, w, { st with lastHealthCheckTime := now, isHealthy := false }, [])

/-- `checkStrapiHealth`: probe only when `Date.now() - lastHealthCheckTime`
exceeds the configured interval (env `STRAPI_HEALTH_CHECK_INTERVAL`, default
`120e3` ms), otherwise return the cached boolean. -/
def checkStrapiHealth (w : World) (st : SyncState) (now : Nat) :
    Bool × World × SyncState × List Ev :=
  let timeInterval : Int := w.envHealthInterval.getD 120000
  let timeDifference : Int := (now : Int) - (st.lastHealthCheckTime : Int)
  if timeInterval < timeDifference then
    executeStrapiHealthCheck w st now
  else
    (st.isHealthy, w, st, [])

/-- `waitForHealth` polling loop body with explicit fuel: check, and if not
healthy sleep 1000 ms and check again. -/
def waitForHealthGo : Nat → World → SyncState → Nat → List Ev → R Unit
  | 0, w, st, now, tr => ⟨.div, w, st, now, tr⟩
  | n + 1, w, st, now, tr =>
    match checkStrapiHealth w st now with
    | (true, w, st, tr') => ⟨.ok (), w, st, now, tr ++ tr'⟩
    | (false, w, st, tr') => waitForHealthGo n w st (now + 1000) (tr ++ tr')

/-- `waitForHealth`: blocks until `checkStrapiHealth` returns true. -/
def waitForHealth (w : World) (st : SyncState) (now : Nat) : R Unit :=
  waitForHealthGo w.fuel w st now []

/-! ## Credential layer -/

/-- `executeLoginAsStrapiUser`: wait for health, then
`POST /api/auth/local` with `\x7bidentifier, password\x7d`; a resolved
response is returned, a rejection goes through `_axiosError`, which throws. -/
def executeLoginAsStrapiUser (w : World) (st : SyncState) (now : Nat)
    (email : String) : R LoginResp :=
  match waitForHealth w st now with
  | ⟨.ok _, w, st, now, tr⟩ =>
    let i := w.cnt.l
    let w := { w with cnt := { w.cnt with l := w.cnt.l + 1 } }
    let tr := tr ++ [.login email]
    match w.rem.login i with
    | some resp => ⟨.ok resp, w, st, now, tr⟩
    | none => ⟨.err, w, st, now, tr⟩
  | ⟨.err, w, st, now, tr⟩ => ⟨.err, w, st, now, tr⟩
  | ⟨.div, w, st, now, tr⟩ => ⟨.div, w, st, now, tr⟩

/-- The login branch of `strapiLoginSendDatalayer`: call
`executeLoginAsStrapiUser`; when the response carries a jwt, cache
`\x7btoken, Date.now(), user\x7d` under the email and return it; when it
carries none, fall off the function (return `undefined`, `Out.ok none`). -/
def strapiLoginFresh (w : World) (st : SyncState) (now : Nat)
    (email : String) : R (Option UserCreds) :=
  match executeLoginAsStrapiUser w st now email with
  | ⟨.ok resp, w, st, now, tr⟩ =>
    match resp.jwt with
    | some jwt =>
      let creds : UserCreds := { token := jwt, time := now, user := resp.user }
      let st := { st with userTokens :=
        (email, creds) :: st.userTokens.filter (fun p => ¬(p.1 = email)) }
      ⟨.ok (some creds), w, st, now, tr⟩
    | none => ⟨.ok none, w, st, now, tr⟩
  | ⟨.err, w, st, now, tr⟩ => ⟨.err, w, st, now, tr⟩
  | ⟨.div, w, st, now, tr⟩ => ⟨.div, w, st, now, tr⟩

/-- `strapiLoginSendDatalayer`: when a cached credential exists, default the
module-level `strapiRetryDelay` to `180e3` if it is falsy and return the
cached credential if `floor(now/1000) - floor(cached.time/1000)` is below
it (the source compares the seconds difference against the millisecond
delay verbatim); otherwise log in afresh (`strapiLoginFresh`). -/
def strapiLoginSendDatalayer (w : World) (st : SyncState) (now : Nat)
    (email : String) : R (Option UserCreds) :=
  match (st.userTokens.find? (fun p => p.1 = email)).map (fun p => p.2) with
  | some lr =>
    let st := if st.strapiRetryDelay.getD 0 = 0 then
        { st with strapiRetryDelay := some 180000 } else st
    let delay := st.strapiRetryDelay.getD 180000
    let diff := now / 1000 - lr.time / 1000
    if diff < delay then ⟨.ok (some lr), w, st, now, []⟩
    else strapiLoginFresh w st now email
  | none => strapiLoginFresh w st now email

/-- `fetchUserToken`: `const token = this.userTokens[email].token` — reading
`.token` of a missing cache entry throws a `TypeError`. -/
def fetchUserToken (st : SyncState) (email : String) : Out String :=
  match (st.userTokens.find? (fun p => p.1 = email)).map (fun p => p.2) with
  | some creds => .ok creds.token
  | none => .err

/-! ## Request executor (entry CRUD) -/

/-- Uniform result record of the entity-sync layer. -/
structure StrapiResult where
  status : Nat
  idField : Option JVal := none
  medusaIdField : Option JVal := none
  dataField : Option JVal := none

/-- `executeStrapiSend`: wait for health, build
`<base>/api/<type>[/<id>]`, set the bearer header, fire axios; a resolved
response is returned, a rejection goes through `_axiosError`, which throws. -/
def executeStrapiSend (w : World) (st : SyncState) (now : Nat)
    (method : Meth) (type_ : String) (token : String) (id : Option String)
    (body : Option JVal) : R EntryResp :=
  match waitForHealth w st now with
  | ⟨.ok _, w, st, now, tr⟩ =>
    let i := w.cnt.e
    let w := { w with cnt := { w.cnt with e := w.cnt.e + 1 } }
    let tr := tr ++ [.entry method type_ id token body]
    match w.rem.entry i with
    | some resp => ⟨.ok resp, w, st, now, tr⟩
    | none => ⟨.err, w, st, now, tr⟩
  | ⟨.err, w, st, now, tr⟩ => ⟨.err, w, st, now, tr⟩
  | ⟨.div, w, st, now, tr⟩ => ⟨.div, w, st, now, tr⟩

/-- Parameters of one data-layer entry call. -/
structure StrapiSendParams where
  method : Meth
  type_ : String
  id : Option String := none
  data : Option JVal := none
  email : String

/-- `strapiSendDataLayer`: obtain credentials via `strapiLoginSendDatalayer`
(a login failure propagates — only the transport call below sits in the
`try`), read `.token` (a `TypeError` when the login returned `undefined`),
translate the payload (`translateIdsToMedusaIds`, then force the top-level
`medusa_id` from `data.id` and delete `id` — see `sendBody`), fire
`executeStrapiSend` and map the response to the uniform record; any error
thrown by the transport call is caught and mapped to `\x7bstatus: 400\x7d`. -/
def strapiSendDataLayer (w : World) (st : SyncState) (now : Nat)
    (p : StrapiSendParams) : R StrapiResult :=
  match strapiLoginSendDatalayer w st now p.email with
  | ⟨.ok userCreds, w, st, now, tr⟩ =>
    match userCreds with
    | none => ⟨.err, w, st, now, tr⟩
    | some creds =>
      let dataToSend := p.data.map sendBody
      match executeStrapiSend w st now p.method p.type_ creds.token p.id
          dataToSend with
      | ⟨.ok resp, w, st, now, tr'⟩ =>
        ⟨.ok { status := resp.status,
               idField := sendBody.jGet' resp.body "id",
               medusaIdField := sendBody.jGet' resp.body "medusa_id",
               dataField := some resp.body }, w, st, now, tr ++ tr'⟩
      | ⟨.err, w, st, now, tr'⟩ =>
        ⟨.ok { status := 400 }, w, st, now, tr ++ tr'⟩
      | ⟨.div, w, st, now, tr'⟩ => ⟨.div, w, st, now, tr ++ tr'⟩
  | ⟨.err, w, st, now, tr⟩ => ⟨.err, w, st, now, tr⟩
  | ⟨.div, w, st, now, tr⟩ => ⟨.div, w, st, now, tr⟩

/-- `processStrapiEntry`: `strapiSendDataLayer` with every thrown error
mapped to `\x7bstatus: 400, data: undefined\x7d`. -/
def processStrapiEntry (w : World) (st : SyncState) (now : Nat)
    (p : StrapiSendParams) : R StrapiResult :=
  match strapiSendDataLayer w st now p with
  | ⟨.ok r, w, st, now, tr⟩ => ⟨.ok r, w, st, now, tr⟩
  | ⟨.err, w, st, now, tr⟩ => ⟨.ok { status := 400 }, w, st, now, tr⟩
  | ⟨.div, w, st, now, tr⟩ => ⟨.div, w, st, now, tr⟩

/-- `createEntryInStrapi`: `processStrapiEntry` with method `post`. -/
def createEntryInStrapi (w : World) (st : SyncState) (now : Nat)
    (p : StrapiSendParams) : R StrapiResult :=
  processStrapiEntry w st now { p with method := .post }

/-- `updateEntryInStrapi`: `processStrapiEntry` with method `put`. -/
def updateEntryInStrapi (w : World) (st : SyncState) (now : Nat)
    (p : StrapiSendParams) : R StrapiResult :=
  processStrapiEntry w st now { p with method := .put }

/-- `deleteEntryInStrapi`: `processStrapiEntry` with method `delete`. -/
def deleteEntryInStrapi (w : World) (st : SyncState) (now : Nat)
    (p : StrapiSendParams) : R StrapiResult :=
  processStrapiEntry w st now { p with method := .delete }

/-- `getType`: a data-layer `GET /api/<type>` (no catch of its own, so only a
login failure makes it reject — a transport failure was already mapped to
`\x7bstatus: 400\x7d` inside `strapiSendDataLayer`). -/
def getType (w : World) (st : SyncState) (now : Nat) (type_ : String)
    (email : String) : R StrapiResult :=
  strapiSendDataLayer w st now
    { method := .get, type_ := type_, email := email }

/-- The `hasType` guard used by the entity operations:
`getType(type).then(() => true).catch(() => false)` — true whenever
`getType` resolves (which, per the above, includes a 404 on the probed
type), false when it rejects. -/
def hasTypeGuard (w : World) (st : SyncState) (now : Nat) (type_ : String)
    (email : String) : R Bool :=
  match getType w st now type_ email with
  | ⟨.ok _, w, st, now, tr⟩ => ⟨.ok true, w, st, now, tr⟩
  | ⟨.err, w, st, now, tr⟩ => ⟨.ok false, w, st, now, tr⟩
  | ⟨.div, w, st, now, tr⟩ => ⟨.div, w, st, now, tr⟩

/-! ## Ignore / echo guard -/

/-- `addIgnore_(id, side)`: `redis.set(key, 1, "EX",
options.strapi_ignore_threshold || IGNORE_THRESHOLD)` with
`IGNORE_THRESHOLD = 3` seconds and key `` `${id}_ignore_${side}` ``; the
store expires the key `ttl` seconds after it is set. -/
def addIgnore_ (w : World) (st : SyncState) (now : Nat) (id side : String) :
    SyncState :=
  let key := id ++ "_ignore_" ++ side
  let ttl := if w.ignoreThreshold = 0 then 3 else w.ignoreThreshold
  { st with redis :=
    (key, now + ttl * 1000) :: st.redis.filter (fun p => ¬(p.1 = key)) }

/-- `shouldIgnore_(id, side)`: `redis.get(key)` — truthy exactly while the
key has not yet expired. -/
def shouldIgnore_ (st : SyncState) (now : Nat) (id side : String) : Bool :=
  match (st.redis.find? (fun p => p.1 = id ++ "_ignore_" ++ side)).map
      (fun p => p.2) with
  | some expiry => now < expiry
  | none => false

/-! ## Field-relevance filter -/

/-- An inbound change-event payload: `\x7bid, fields?\x7d` (spec §6); its
JS `Object.keys` are `"id"` and, when present, `"fields"`. -/
structure EventData where
  id : String
  fields : Option (List String) := none

/-- The keys of the event object, in insertion order. -/
def eventKeys (d : EventData) : List String :=
  "id" :: (if d.fields.isSome then ["fields"] else [])

/-- JS truthiness of `list.find(...)`: the found string, undefined when
nothing matched; `""` is falsy. -/
def jsTruthyFind (o : Option String) : Bool :=
  match o with
  | some s => ¬(s = "")
  | none => false

/-- `verifyDataContainsFields`: `data.fields?.find(f =>
updateFields.includes(f))`, and when that is falsy, fall back to testing
whether any of `Object.keys(data)` is one of the update fields. -/
def verifyDataContainsFields (data : EventData) (updateFields : List String) :
    Bool :=
  let found := jsTruthyFind
    (match data.fields with
     | some fs => fs.find? (fun f => updateFields.contains f)
     | none => none)
  if found then true
  else (eventKeys data).any (fun field =>
    updateFields.any (fun uf => uf = field))

/-- The product update allow-list (verbatim, including the duplicate
`"tags"`). -/
def productUpdateFields : List String :=
  ["variants", "options", "tags", "title", "subtitle", "tags", "type",
   "type_id", "collection", "collection_id", "thumbnail"]

/-- The region update allow-list. -/
def regionUpdateFields : List String :=
  ["name", "currency_code", "countries", "payment_providers",
   "fulfillment_providers"]

/-- The product-variant update allow-list. -/
def variantUpdateFields : List String :=
  ["title", "prices", "sku", "material", "weight", "length", "height",
   "origin_country", "options"]

/-! ## Entity sync operations -/

/-- Property read on a retrieved domain entity used as `entity.id` when the
entity is passed back into the entry layer (a domain entity's id is a
string). -/
def entityId (v : JVal) : Option String :=
  match sendBody.jGet' v "id" with
  | some (.str s) => some s
  | _ => none

/-- `updateProductInStrapi`: type guard on `"products"`, allow-list filter,
echo-suppression check, canonical fetch, then `updateEntryInStrapi`
(`PUT /api/products/<id>`); a falsy retrieve result yields
`\x7bstatus: 400\x7d`. -/
def updateProductInStrapi (w : World) (st : SyncState) (now : Nat)
    (data : EventData) (email : String) : R StrapiResult :=
  match hasTypeGuard w st now "products" email with
  | ⟨.ok hasType, w, st, now, tr⟩ =>
    if ¬hasType then ⟨.ok { status := 400 }, w, st, now, tr⟩
    else if ¬verifyDataContainsFields data productUpdateFields then
      ⟨.ok { status := 400 }, w, st, now, tr⟩
    else if shouldIgnore_ st now data.id "strapi" then
      ⟨.ok { status := 400 }, w, st, now, tr⟩
    else
      match w.rem.prodRetrieve data.id with
      | some product =>
        match updateEntryInStrapi w st now
            { method := .put, type_ := "products", id := entityId product,
              data := some product, email := email } with
        | ⟨o, w, st, now, tr'⟩ => ⟨o, w, st, now, tr ++ tr'⟩
      | none => ⟨.ok { status := 400 }, w, st, now, tr⟩
  | ⟨.err, w, st, now, tr⟩ => ⟨.err, w, st, now, tr⟩
  | ⟨.div, w, st, now, tr⟩ => ⟨.div, w, st, now, tr⟩

/-- `deleteProductInStrapi`: type guard on `"products"`, echo-suppression
check, then `deleteEntryInStrapi` (`DELETE /api/products/<id>`). -/
def deleteProductInStrapi (w : World) (st : SyncState) (now : Nat)
    (data : EventData) (email : String) : R StrapiResult :=
  match hasTypeGuard w st now "products" email with
  | ⟨.ok hasType, w, st, now, tr⟩ =>
    if ¬hasType then ⟨.ok { status := 400 }, w, st, now, tr⟩
    else if shouldIgnore_ st now data.id "strapi" then
      ⟨.ok { status := 400 }, w, st, now, tr⟩
    else
      match deleteEntryInStrapi w st now
          { method := .delete, type_ := "products", id := some data.id,
            email := email } with
      | ⟨o, w, st, now, tr'⟩ => ⟨o, w, st, now, tr ++ tr'⟩
  | ⟨.err, w, st, now, tr⟩ => ⟨.err, w, st, now, tr⟩
  | ⟨.div, w, st, now, tr⟩ => ⟨.div, w, st, now, tr⟩

/-- `updateProductVariantInStrapi`: the allow-list filter runs only when the
event carries a `fields` list (`data.fields.find(...) ||
verifyDataContainsFields(...)`); no type guard; then echo-suppression
check, canonical fetch and `updateEntryInStrapi`
(`PUT /api/product-variants/<id>`). -/
def updateProductVariantInStrapi (w : World) (st : SyncState) (now : Nat)
    (data : EventData) (email : String) : R StrapiResult :=
  let guardFails : Bool :=
    match data.fields with
    | some fs =>
      !(jsTruthyFind (fs.find? (fun f => variantUpdateFields.contains f)) ||
        verifyDataContainsFields data variantUpdateFields)
    | none => false
  if guardFails then ⟨.ok { status := 400 }, w, st, now, []⟩
  else if shouldIgnore_ st now data.id "strapi" then
    ⟨.ok { status := 400 }, w, st, now, []⟩
  else
    match w.rem.variantRetrieve data.id with
    | some variant =>
      updateEntryInStrapi w st now
        { method := .put, type_ := "product-variants", id := entityId variant,
          data := some variant, email := email }
    | none => ⟨.ok { status := 400 }, w, st, now, []⟩

/-- `updateRegionInStrapi`: type guard on `"regions"`, allow-list filter,
echo-suppression check, canonical fetch, then `updateEntryInStrapi`
(`PUT /api/regions/<id>`). -/
def updateRegionInStrapi (w : World) (st : SyncState) (now : Nat)
    (data : EventData) (email : String) : R StrapiResult :=
  match hasTypeGuard w st now "regions" email with
  | ⟨.ok hasType, w, st, now, tr⟩ =>
    if ¬hasType then ⟨.ok { status := 400 }, w, st, now, tr⟩
    else if ¬verifyDataContainsFields data regionUpdateFields then
      ⟨.ok { status := 400 }, w, st, now, tr⟩
    else if shouldIgnore_ st now data.id "strapi" then
      ⟨.ok { status := 400 }, w, st, now, tr⟩
    else
      match w.rem.regionRetrieve data.id with
      | some region =>
        match updateEntryInStrapi w st now
            { method := .put, type_ := "regions", id := entityId region,
              data := some region, email := email } with
        | ⟨o, w, st, now, tr'⟩ => ⟨o, w, st, now, tr ++ tr'⟩
      | none => ⟨.ok { status := 400 }, w, st, now, tr⟩
  | ⟨.err, w, st, now, tr⟩ => ⟨.err, w, st, now, tr⟩
  | ⟨.div, w, st, now, tr⟩ => ⟨.div, w, st, now, tr⟩

/-- `deleteRegionInStrapi` (source comment: `// Blocker - Delete Region
API`): the type guard probes `"product-variants"` — not `"regions"` — and
then `deleteEntryInStrapi` deletes the `"regions"` entry
(`DELETE /api/regions/<id>`). -/
def deleteRegionInStrapi (w : World) (st : SyncState) (now : Nat)
    (data : EventData) (email : String) : R StrapiResult :=
  match hasTypeGuard w st now "product-variants" email with
  | ⟨.ok hasType, w, st, now, tr⟩ =>
    if ¬hasType then ⟨.ok { status := 400 }, w, st, now, tr⟩
    else if shouldIgnore_ st now data.id "strapi" then
      ⟨.ok { status := 400 }, w, st, now, tr⟩
    else
      match deleteEntryInStrapi w st now
          { method := .delete, type_ := "regions", id := some data.id,
            email := email } with
      | ⟨o, w, st, now, tr'⟩ => ⟨o, w, st, now, tr ++ tr'⟩
  | ⟨.err, w, st, now, tr⟩ => ⟨.err, w, st, now, tr⟩
  | ⟨.div, w, st, now, tr⟩ => ⟨.div, w, st, now, tr⟩

/-- `createRegionInStrapi`: the type guard probes `"regions"`; then the
canonical region is fetched (a missing region makes the domain service
throw, which propagates) and `createEntryInStrapi` fires
`POST /api/regions`. -/
def createRegionInStrapi (w : World) (st : SyncState) (now : Nat)
    (regionId : String) (email : String) : R StrapiResult :=
  match hasTypeGuard w st now "regions" email with
  | ⟨.ok hasType, w, st, now, tr⟩ =>
    if ¬hasType then ⟨.ok { status := 400 }, w, st, now, tr⟩
    else
      match w.rem.regionRetrieve regionId with
      | some region =>
        match createEntryInStrapi w st now
            { method := .post, type_ := "regions", id := some regionId,
              data := some region, email := email } with
        | ⟨o, w, st, now, tr'⟩ => ⟨o, w, st, now, tr ++ tr'⟩
      | none => ⟨.err, w, st, now, tr⟩
  | ⟨.err, w, st, now, tr⟩ => ⟨.err, w, st, now, tr⟩
  | ⟨.div, w, st, now, tr⟩ => ⟨.div, w, st, now, tr⟩

/-! ## Admin auth and bootstrap -/

/-- `executeLoginAsStrapiSuperAdmin`: when the module-level
`strapiRetryDelay` is truthy and
`floor((now - lastAdminLoginAttemptTime)/1000)` is below it, return the
cached `\x7btoken, user\x7d` without a wire call; otherwise record the
attempt time, wait for health, `POST /admin/login`, store
`\x7btoken, user\x7d` on success; a rejection goes through `_axiosError`
and the error is re-thrown. -/
def executeLoginAsStrapiSuperAdmin (w : World) (st : SyncState) (now : Nat) :
    R (String × String) :=
  let timeDiff := (now - st.lastAdminLoginAttemptTime) / 1000
  let cachedReturn : Bool :=
    match st.strapiRetryDelay with
    | some d => ¬(d = 0) && timeDiff < d
    | none => false
  if cachedReturn then
    ⟨.ok (st.strapiSuperAdminAuthToken, st.userAdminProfile), w, st, now, []⟩
  else
    let st := { st with lastAdminLoginAttemptTime := now }
    match waitForHealth w st now with
    | ⟨.ok _, w, st, now, tr⟩ =>
      let i := w.cnt.al
      let w := { w with cnt := { w.cnt with al := w.cnt.al + 1 } }
      let tr := tr ++ [.adminLogin]
      match w.rem.adminLogin i with
      | some (token, user) =>
        let st := { st with strapiSuperAdminAuthToken := token,
                            userAdminProfile := user }
        ⟨.ok (token, user), w, st, now, tr⟩
      | none => ⟨.err, w, st, now, tr⟩
    | ⟨.err, w, st, now, tr⟩ => ⟨.err, w, st, now, tr⟩
    | ⟨.div, w, st, now, tr⟩ => ⟨.div, w, st, now, tr⟩

/-- `executeStrapiAdminSend`: log in as the super admin first (its errors
propagate), refresh `strapiSuperAdminAuthToken` from the result, then fire
`method /admin/<path>`; a rejection goes through `_axiosError`, which
throws. -/
def executeStrapiAdminSend (w : World) (st : SyncState) (now : Nat)
    (type_ : String) : R Unit :=
  match executeLoginAsStrapiSuperAdmin w st now with
  | ⟨.ok (token, _), w, st, now, tr⟩ =>
    let st := { st with strapiSuperAdminAuthToken := token }
    let i := w.cnt.ap
    let w := { w with cnt := { w.cnt with ap := w.cnt.ap + 1 } }
    let tr := tr ++ [.adminPost type_]
    match w.rem.adminPost i with
    | some _ => ⟨.ok (), w, st, now, tr⟩
    | none => ⟨.err, w, st, now, tr⟩
  | ⟨.err, w, st, now, tr⟩ => ⟨.err, w, st, now, tr⟩
  | ⟨.div, w, st, now, tr⟩ => ⟨.div, w, st, now, tr⟩

/-- `registerSuperAdminUserInStrapi`:
`executeStrapiAdminSend("post", "register-admin", …, auth)`. -/
def registerSuperAdminUserInStrapi (w : World) (st : SyncState) (now : Nat) :
    R Unit :=
  executeStrapiAdminSend w st now "register-admin"

/-- `registerOrLoginAdmin`: attempt the idempotent admin registration with
every thrown error swallowed (logged), then log in as the super admin —
the login is authoritative and its errors propagate. -/
def registerOrLoginAdmin (w : World) (st : SyncState) (now : Nat) :
    R (String × String) :=
  match registerSuperAdminUserInStrapi w st now with
  | ⟨.ok _, w, st, now, tr⟩ | ⟨.err, w, st, now, tr⟩ =>
    match executeLoginAsStrapiSuperAdmin w st now with
    | ⟨o, w, st, now, tr'⟩ => ⟨o, w, st, now, tr ++ tr'⟩
  | ⟨.div, w, st, now, tr⟩ => ⟨.div, w, st, now, tr⟩

/-- `executeRegisterMedusaUser`: super-admin login (errors propagate), wait
for health, `POST /strapi-plugin-medusajs/create-medusa-user`; a rejection
goes through `_axiosError`, which throws. -/
def executeRegisterMedusaUser (w : World) (st : SyncState) (now : Nat) :
    R Unit :=
  match executeLoginAsStrapiSuperAdmin w st now with
  | ⟨.ok _, w, st, now, tr⟩ =>
    match waitForHealth w st now with
    | ⟨.ok _, w, st, now, tr'⟩ =>
      let tr := tr ++ tr'
      let i := w.cnt.ru
      let w := { w with cnt := { w.cnt with ru := w.cnt.ru + 1 } }
      let tr := tr ++ [.registerMedusaUser]
      match w.rem.regUser i with
      | some _ => ⟨.ok (), w, st, now, tr⟩
      | none => ⟨.err, w, st, now, tr⟩
    | ⟨.err, w, st, now, tr'⟩ => ⟨.err, w, st, now, tr ++ tr'⟩
    | ⟨.div, w, st, now, tr'⟩ => ⟨.div, w, st, now, tr ++ tr'⟩
  | ⟨.err, w, st, now, tr⟩ => ⟨.err, w, st, now, tr⟩
  | ⟨.div, w, st, now, tr⟩ => ⟨.div, w, st, now, tr⟩

/-- `registerDefaultMedusaUser`: `executeRegisterMedusaUser` with every
thrown error swallowed (logged) — the register-or-login pattern treats the
registration as idempotent. -/
def registerDefaultMedusaUser (w : World) (st : SyncState) (now : Nat) :
    R Unit :=
  match executeRegisterMedusaUser w st now with
  | ⟨.ok _, w, st, now, tr⟩ | ⟨.err, w, st, now, tr⟩ => ⟨.ok (), w, st, now, tr⟩
  | ⟨.div, w, st, now, tr⟩ => ⟨.div, w, st, now, tr⟩

/-- `loginAsDefaultMedusaUser`: `strapiLoginSendDatalayer` on the default
identity with every thrown error swallowed — on a throw the function
returns `undefined` credentials. -/
def loginAsDefaultMedusaUser (w : World) (st : SyncState) (now : Nat) :
    R (Option UserCreds) :=
  match strapiLoginSendDatalayer w st now w.defaultEmail with
  | ⟨.ok creds, w, st, now, tr⟩ => ⟨.ok creds, w, st, now, tr⟩
  | ⟨.err, w, st, now, tr⟩ => ⟨.ok none, w, st, now, tr⟩
  | ⟨.div, w, st, now, tr⟩ => ⟨.div, w, st, now, tr⟩

/-- `registerOrLoginDefaultMedusaUser`: idempotent registration (failures
swallowed), then the authoritative login. -/
def registerOrLoginDefaultMedusaUser (w : World) (st : SyncState) (now : Nat) :
    R (Option UserCreds) :=
  match registerDefaultMedusaUser w st now with
  | ⟨.ok _, w, st, now, tr⟩ | ⟨.err, w, st, now, tr⟩ =>
    match loginAsDefaultMedusaUser w st now with
    | ⟨o, w, st, now, tr'⟩ => ⟨o, w, st, now, tr ++ tr'⟩
  | ⟨.div, w, st, now, tr⟩ => ⟨.div, w, st, now, tr⟩

/-- `executeSync`: wait for health, then
`POST /strapi-plugin-medusajs/synchronise-medusa-tables` with the given
bearer token; a rejection propagates (no catch). -/
def executeSync (w : World) (st : SyncState) (now : Nat) : R Nat :=
  match waitForHealth w st now with
  | ⟨.ok _, w, st, now, tr⟩ =>
    let i := w.cnt.sy
    let w := { w with cnt := { w.cnt with sy := w.cnt.sy + 1 } }
    let tr := tr ++ [.sync]
    match w.rem.syncCall i with
    | some status => ⟨.ok status, w, st, now, tr⟩
    | none => ⟨.err, w, st, now, tr⟩
  | ⟨.err, w, st, now, tr⟩ => ⟨.err, w, st, now, tr⟩
  | ⟨.div, w, st, now, tr⟩ => ⟨.div, w, st, now, tr⟩

/-- `intializeServer` (source spelling): register-or-login the admin (its
login errors propagate and abort the bootstrap); only when
`strapiSuperAdminAuthToken` is truthy, register-or-login the default
medusa user and read `.user` off its result (a `TypeError` when the login
returned `undefined`); only when that user is truthy, run `executeSync`
with the super-admin token, returning its response when the status is
below 300 and `undefined` otherwise. -/
def intializeServer (w : World) (st : SyncState) (now : Nat) :
    R (Option Nat) :=
  match registerOrLoginAdmin w st now with
  | ⟨.ok _, w, st, now, tr⟩ =>
    if ¬(st.strapiSuperAdminAuthToken = "") then
      match registerOrLoginDefaultMedusaUser w st now with
      | ⟨.ok creds, w, st, now, tr'⟩ =>
        let tr := tr ++ tr'
        match creds with
        | none => ⟨.err, w, st, now, tr⟩
        | some c =>
          if ¬(c.user = "") then
            match executeSync w st now with
            | ⟨.ok status, w, st, now, tr'⟩ =>
              let tr := tr ++ tr'
              if status < 300 then ⟨.ok (some status), w, st, now, tr⟩
              else ⟨.ok none, w, st, now, tr⟩
            | ⟨.err, w, st, now, tr'⟩ => ⟨.err, w, st, now, tr ++ tr'⟩
            | ⟨.div, w, st, now, tr'⟩ => ⟨.div, w, st, now, tr ++ tr'⟩
          else ⟨.ok none, w, st, now, tr⟩
      | ⟨.err, w, st, now, tr'⟩ => ⟨.err, w, st, now, tr ++ tr'⟩
      | ⟨.div, w, st, now, tr'⟩ => ⟨.div, w, st, now, tr ++ tr'⟩
    else ⟨.ok none, w, st, now, tr⟩
  | ⟨.err, w, st, now, tr⟩ => ⟨.err, w, st, now, tr⟩
  | ⟨.div, w, st, now, tr⟩ => ⟨.div, w, st, now, tr⟩

/-! ## Transport retry configuration (`axiosRetry(axios, ...)`) -/

/-- The `retries` option: the retry ceiling. -/
def axiosRetryRetries : Nat := 100

/-- The `retryCondition` option: retry exactly the HTTP 429 responses. -/
def axiosRetryCondition (status : Nat) : Bool :=
  status = 429

/-- The `retryDelay` option.  Headers are modelled as `Option Nat`; a
present `x-retry-after` header (any numeric string, including `"0"`, is
truthy) selects the header branch where the delay is
`retryCount * 1000 * header`; otherwise the delay is
`(|parseInt(x-ratelimit-reset ?? now + 120000) - floor(now/1000)| + 2) *
1000`.  In both branches the module-level `strapiRetryDelay` is set to the
returned delay; the result is `(returned delay, new strapiRetryDelay)`. -/
def axiosRetryDelay (retryCount : Nat) (xRetryAfter : Option Nat)
    (xRateLimitReset : Option Nat) (now : Nat) : Nat × Nat :=
  let rateLimitResetTime : Int :=
    match xRateLimitReset with
    | some r => (r : Int)
    | none => (now : Int) + 120000
  match xRetryAfter with
  | none =>
    let timeDiffms : Nat :=
      (rateLimitResetTime - ((now : Int) / 1000)).natAbs + 2
    let retryHeaderDelay := timeDiffms * 1000
    (retryHeaderDelay, retryHeaderDelay)
  | some h =>
    let d := retryCount * 1000 * h
    (d, d)

/-! ## Trace observations and scenario fixtures -/

/-- Is this wire call an outbound entry write (POST/PUT/DELETE on
`/api/<type>`)?  A GET probe is transport traffic but not a write. -/
def Ev.isEntryWrite : Ev → Bool
  | .entry m _ _ _ _ => ¬(m = .get)
  | _ => false

/-- Is this wire call a login request (`POST /api/auth/local`)? -/
def Ev.isLogin : Ev → Bool
  | .login _ => true
  | _ => false

/-- Is this wire call an entry CRUD call (any method)? -/
def Ev.isEntry : Ev → Bool
  | .entry _ _ _ _ _ => true
  | _ => false

/-- Is this the bulk resynchronisation call? -/
def Ev.isSync : Ev → Bool
  | .sync => true
  | _ => false

/-- Is this a health probe? -/
def Ev.isHealth : Ev → Bool
  | .health => true
  | _ => false

/-- Wire calls of the admin bootstrap phase: health probes, admin logins and
admin management posts. -/
def Ev.isAdminPhase : Ev → Bool
  | .health => true
  | .adminLogin => true
  | .adminPost _ => true
  | _ => false

/-- Wire calls of the service-user bootstrap phase: the medusa-user
registration and the service-user login. -/
def Ev.isUserPhase : Ev → Bool
  | .registerMedusaUser => true
  | .login _ => true
  | _ => false

/-- The cached health state is fresh and healthy and the polling loop has
fuel: under this precondition every `waitForHealth` on the way returns
immediately, with no probe and no state change. -/
def HealthFresh (w : World) (st : SyncState) (now : Nat) : Prop :=
  st.isHealthy = true ∧
  (now : Int) - (st.lastHealthCheckTime : Int) ≤ w.envHealthInterval.getD 120000 ∧
  1 ≤ w.fuel

/-- The state `strapiLoginSendDatalayer` leaves behind when it finds a cache
entry: the module-level `strapiRetryDelay` is defaulted to `180e3` if falsy. -/
def defaultDelay (st : SyncState) : SyncState :=
  if st.strapiRetryDelay.getD 0 = 0 then
    { st with strapiRetryDelay := some 180000 } else st

/-- The effective credential-reuse window `strapiLoginSendDatalayer` compares
the cached credential's age against. -/
def reuseWindow (st : SyncState) : Nat :=
  (defaultDelay st).strapiRetryDelay.getD 180000

/-- A world whose remote serves every entry call except the first (call 0 is
rejected — e.g. a 401 on an expired or unauthorized bearer token, or a 404 on
a missing type), used by the concrete counterexample runs. -/
def cexWorld : World :=
  { rem := { entry := fun i => if i = 0 then none
               else some { status := 200, body := .obj [] } },
    fuel := 2 }

/-- A state with a freshly cached credential for `"svc@x"` and fresh healthy
cached health. -/
def cexState : SyncState :=
  { userTokens := [("svc@x", { token := "T", time := 1000000, user := "U" })],
    isHealthy := true,
    lastHealthCheckTime := 999000 }

/-- A world whose remote serves every entry call (status 200). -/
def okWorld : World :=
  { rem := { entry := fun _ => some { status := 200, body := .obj [] } },
    fuel := 2 }

/-- A world whose health endpoint always fails (network error). -/
def downHealthWorld : World :=
  { rem := {}, fuel := 1 }

/-- The world after one entry call has been served. -/
def bumpE (w : World) : World :=
  { w with cnt := { w.cnt with e := w.cnt.e + 1 } }

/-- A canonical product as the domain service returns it. -/
def prodEntity : JVal :=
  .obj [("id", .str "p1"), ("title", .str "A")]

/-- A nested product payload as the domain service would emit it: a scalar
top-level id and a variant list whose element carries its own id. -/
def c8Kvs : List (String × JVal) :=
  [("id", .str "p1"), ("title", .str "A"),
   ("variants", .arr [.obj [("id", .str "v1")]])]

/-- Echo-suppression scenario: the remote serves every entry call and the
domain service knows the product. -/
def ignoreWorld : World :=
  { rem := { entry := fun _ => some { status := 200, body := .obj [] },
             prodRetrieve := fun _ => some prodEntity },
    fuel := 2 }

/-- The world after one login call has been served. -/
def bumpL (w : World) : World :=
  { w with cnt := { w.cnt with l := w.cnt.l + 1 } }

/-- The world after one health probe has been served. -/
def bumpH (w : World) : World :=
  { w with cnt := { w.cnt with h := w.cnt.h + 1 } }

/-- Health-monitor scenario: healthy cached state whose last probe response
is long past (the configured interval has elapsed). -/
def staleHealthState : SyncState :=
  { isHealthy := true, lastHealthCheckTime := 0 }

/-- How many login requests a trace contains. -/
def countLogin (tr : List Ev) : Nat :=
  (tr.filter Ev.isLogin).length

/-- How many outbound entry writes a trace contains. -/
def countEntryWrites (tr : List Ev) : Nat :=
  (tr.filter Ev.isEntryWrite).length

/-- A trace containing no outbound entry write. -/
def NoWrites (tr : List Ev) : Prop :=
  ∀ e ∈ tr, e.isEntryWrite = false

/-- Every wire call of the trace avoids the classifier `p`. -/
def TraceAvoids (p : Ev → Bool) (tr : List Ev) : Prop :=
  ∀ e ∈ tr, p e = false

/-- The effective ignore-marker TTL in seconds:
`options.strapi_ignore_threshold || IGNORE_THRESHOLD` with
`IGNORE_THRESHOLD = 3`. -/
def effTtl (w : World) : Nat :=
  if w.ignoreThreshold = 0 then 3 else w.ignoreThreshold

/-- Credential-reuse scenario: the remote's login endpoint issues fresh
jwts; a very large configured health interval keeps the cached health
fresh across the whole scenario. -/
def loginOracle (i : Nat) : Option LoginResp :=
  some { jwt := some (if i = 0 then "J1" else "J2"),
         user := if i = 0 then "U1" else "U2" }

/-- Credential-reuse scenario world, built around `loginOracle`. -/
def loginWorld : World :=
  { rem := { login := loginOracle },
    envHealthInterval := some 1000000000000,
    fuel := 1 }

/-- Credential-reuse scenario: a long-stale cached credential. -/
def staleCredState : SyncState :=
  { userTokens := [("u@x", { token := "T0", time := 0, user := "U0" })],
    isHealthy := true,
    lastHealthCheckTime := 200000000 }

/-- Credential-reuse scenario: the credential the first (stale) call caches. -/
def freshCred : UserCreds :=
  { token := "J1", time := 200000000, user := "U1" }

/-- Credential-reuse scenario: the state after the first (stale) call. -/
def freshCredState : SyncState :=
  { userTokens := [("u@x", freshCred)],
    strapiRetryDelay := some 180000,
    isHealthy := true,
    lastHealthCheckTime := 200000000 }

end StrapiSync

namespace StrapiLegacy

/-!
The oldest revision of the service (the `BaseService` class at the top of the
file): its token cache maps an email to a plain jwt string, and its
`strapiSend` retries once — on any transport error — after a fresh login.
The revision's `checkStrapiHealth` gate is abstracted as the boolean
`healthOk` (claim C1 is not about the health monitor; the gate makes the
functions return `undefined` when unhealthy, which is modelled faithfully).
-/

open StrapiSync (Meth EntryResp Out)

/-- Legacy in-memory state: `userTokens[email]` is the cached jwt string. -/
structure LState where
  userTokens : List (String × String) := []

/-- A legacy wire call. -/
inductive LEv where
  | entry (m : Meth) (type_ : String) (id : Option String) (token : String)
  | login (email : String)

/-- Legacy world: remote behaviour (per-endpoint call index), cursors, and
the abstracted health gate. -/
structure LWorld where
  entryResp : Nat → Option EntryResp := fun _ => none
  loginResp : Nat → Option String := fun _ => none
  cntE : Nat := 0
  cntL : Nat := 0
  healthOk : Bool := true

/-- Result of a legacy computation. -/
structure LR (α : Type) where
  out : Out α
  w : LWorld
  st : LState
  tr : List LEv

/-- Legacy `loginAsStrapiUser`: `undefined` when the health gate fails;
otherwise `POST /api/auth/local` — on a response with a jwt the jwt is
cached under the email and the response returned, on a response without a
jwt the function falls through to `return;` (`undefined`), and a rejection
throws.  The oracle yields the response's jwt. -/
def loginAsStrapiUser (w : LWorld) (st : LState) (email : String) :
    LR (Option String) :=
  if ¬w.healthOk then ⟨.ok none, w, st, []⟩
  else
    let i := w.cntL
    let w := { w with cntL := w.cntL + 1 }
    let tr := [LEv.login email]
    match w.loginResp i with
    | some jwt =>
      let st := { st with userTokens :=
        (email, jwt) :: st.userTokens.filter (fun p => ¬(p.1 = email)) }
      ⟨.ok (some jwt), w, st, tr⟩
    | none => ⟨.err, w, st, tr⟩

/-- Legacy `executeStrapiSend`: `undefined` when the health gate fails (no
throw); otherwise fire `method <base>/api/<type>/<id>` with the bearer
token — a rejection is wrapped and thrown. -/
def executeStrapiSend (w : LWorld) (st : LState) (method : Meth)
    (type_ : String) (token : String) (id : Option String) :
    LR (Option EntryResp) :=
  if ¬w.healthOk then ⟨.ok none, w, st, []⟩
  else
    let i := w.cntE
    let w := { w with cntE := w.cntE + 1 }
    let tr := [LEv.entry method type_ id token]
    match w.entryResp i with
    | some r => ⟨.ok (some r), w, st, tr⟩
    | none => ⟨.err, w, st, tr⟩

/-- Legacy `strapiSend`: take the cached token (`fetchUserToken(email) ??
(await loginAsStrapiUser(...)).data.jwt` — reading `.data` of an
`undefined` login result throws); try the transport call; on any thrown
transport error, log in afresh and retry exactly once with
`this.userTokens[email]` (the jwt the re-login cached; JS reads
`undefined` when there is none), letting the retry's outcome — success or
error — surface. -/
def strapiSend (w : LWorld) (st : LState) (method : Meth) (type_ : String)
    (id : Option String) (email : String) : LR (Option EntryResp) :=
  let tokenStep : LR (Option String) :=
    match (st.userTokens.find? (fun p => p.1 = email)).map (fun p => p.2) with
    | some t => ⟨.ok (some t), w, st, []⟩
    | none =>
      match loginAsStrapiUser w st email with
      | ⟨.ok (some jwt), w, st, tr⟩ => ⟨.ok (some jwt), w, st, tr⟩
      | ⟨.ok none, w, st, tr⟩ => ⟨.err, w, st, tr⟩
      | ⟨.err, w, st, tr⟩ => ⟨.err, w, st, tr⟩
      | ⟨.div, w, st, tr⟩ => ⟨.div, w, st, tr⟩
  match tokenStep with
  | ⟨.ok (some token), w, st, tr⟩ =>
    match executeStrapiSend w st method type_ token id with
    | ⟨.ok r, w, st, tr'⟩ => ⟨.ok r, w, st, tr ++ tr'⟩
    | ⟨.err, w, st, tr'⟩ =>
      let tr := tr ++ tr'
      match loginAsStrapiUser w st email with
      | ⟨.ok _, w, st, tr'⟩ =>
        let tr := tr ++ tr'
        let retryToken :=
          match (st.userTokens.find? (fun p => p.1 = email)).map
              (fun p => p.2) with
          | some t => t
          | none => "undefined"
        match executeStrapiSend w st method type_ retryToken id with
        | ⟨o, w, st, tr'⟩ => ⟨o, w, st, tr ++ tr'⟩
      | ⟨.err, w, st, tr'⟩ => ⟨.err, w, st, tr ++ tr'⟩
      | ⟨.div, w, st, tr'⟩ => ⟨.div, w, st, tr ++ tr'⟩
    | ⟨.div, w, st, tr'⟩ => ⟨.div, w, st, tr ++ tr'⟩
  | ⟨.ok none, w, st, tr⟩ => ⟨.err, w, st, tr⟩
  | ⟨.err, w, st, tr⟩ => ⟨.err, w, st, tr⟩
  | ⟨.div, w, st, tr⟩ => ⟨.div, w, st, tr⟩

end StrapiLegacy

/-! # Theorems -/

namespace StrapiSync

@[simp] theorem defaultDelay_userTokens (st : SyncState) :
    (defaultDelay st).userTokens = st.userTokens := by
  unfold defaultDelay; split <;> rfl

@[simp] theorem defaultDelay_redis (st : SyncState) :
    (defaultDelay st).redis = st.redis := by
  unfold defaultDelay; split <;> rfl

@[simp] theorem defaultDelay_isHealthy (st : SyncState) :
    (defaultDelay st).isHealthy = st.isHealthy := by
  unfold defaultDelay; split <;> rfl

@[simp] theorem defaultDelay_lastHealthCheckTime (st : SyncState) :
    (defaultDelay st).lastHealthCheckTime = st.lastHealthCheckTime := by
  unfold defaultDelay; split <;> rfl

@[simp] theorem defaultDelay_adminToken (st : SyncState) :
    (defaultDelay st).strapiSuperAdminAuthToken = st.strapiSuperAdminAuthToken := by
  unfold defaultDelay; split <;> rfl

/-- Under a fresh healthy cached health state (and fuel), `waitForHealth`
returns immediately: no probe, no state change, no time passing. -/
theorem waitForHealth_fresh (w : World) (st : SyncState) (now : Nat)
    (h : HealthFresh w st now) :
    waitForHealth w st now = ⟨.ok (), w, st, now, []⟩ := by
  obtain ⟨h1, h2, h3⟩ := h
  obtain ⟨n, hn⟩ : ∃ n, w.fuel = n + 1 := ⟨w.fuel - 1, by omega⟩
  unfold waitForHealth
  rw [hn]
  unfold waitForHealthGo checkStrapiHealth
  rw [if_neg (by omega)]
  simp [h1]

/-- When a fresh credential is cached for the email,
`strapiLoginSendDatalayer` returns it with no wire call; the only state
change is the defaulting of the module-level `strapiRetryDelay`. -/
theorem strapiLogin_cached (w : World) (st : SyncState) (now : Nat)
    (email : String) (c : UserCreds)
    (hc : (st.userTokens.find? (fun p => p.1 = email)).map (fun p => p.2) =
      some c)
    (hfresh : now / 1000 - c.time / 1000 < reuseWindow st) :
    strapiLoginSendDatalayer w st now email =
      ⟨.ok (some c), w, defaultDelay st, now, []⟩ := by
  unfold strapiLoginSendDatalayer
  rw [hc]
  unfold reuseWindow defaultDelay at hfresh
  dsimp only
  rw [if_pos hfresh]
  rfl

/-- Health freshness is untouched by the delay defaulting. -/
theorem HealthFresh.defaultDelay (w : World) (st : SyncState) (now : Nat)
    (h : HealthFresh w st now) : HealthFresh w (defaultDelay st) now := by
  unfold HealthFresh at *
  simpa using h

/-- The data layer under a fresh cached credential and fresh health: exactly
one wire call — the entry CRUD call itself, with the translated body and
the cached bearer token — and the response (or, for a rejection, the caught
`\x7bstatus: 400\x7d` result). -/
theorem strapiSendDataLayer_cached (w : World) (st : SyncState) (now : Nat)
    (p : StrapiSendParams) (c : UserCreds)
    (hc : (st.userTokens.find? (fun q => q.1 = p.email)).map (fun q => q.2) =
      some c)
    (hfresh : now / 1000 - c.time / 1000 < reuseWindow st)
    (hh : HealthFresh w st now) :
    strapiSendDataLayer w st now p =
      match w.rem.entry w.cnt.e with
      | some resp =>
        ⟨.ok { status := resp.status,
               idField := sendBody.jGet' resp.body "id",
               medusaIdField := sendBody.jGet' resp.body "medusa_id",
               dataField := some resp.body },
         bumpE w, defaultDelay st, now,
         [.entry p.method p.type_ p.id c.token (p.data.map sendBody)]⟩
      | none =>
        ⟨.ok { status := 400 }, bumpE w, defaultDelay st, now,
         [.entry p.method p.type_ p.id c.token (p.data.map sendBody)]⟩ := by
  unfold strapiSendDataLayer
  rw [strapiLogin_cached w st now p.email c hc hfresh]
  dsimp only
  unfold executeStrapiSend
  rw [waitForHealth_fresh w (defaultDelay st) now (hh.defaultDelay w st now)]
  dsimp only
  cases hres : w.rem.entry w.cnt.e <;> simp [hres, bumpE]

/-- The fresh-login branch under fresh health and a jwt-carrying response:
one login wire call, and the cache entry for the email is replaced by
`\x7btoken, now, user\x7d`. -/
theorem strapiLoginFresh_ok (w : World) (st : SyncState) (now : Nat)
    (email : String) (jwt user : String)
    (hh : HealthFresh w st now)
    (hl : w.rem.login w.cnt.l = some { jwt := some jwt, user := user }) :
    strapiLoginFresh w st now email =
      ⟨.ok (some { token := jwt, time := now, user := user }), bumpL w,
       { st with userTokens :=
         (email, { token := jwt, time := now, user := user }) ::
           st.userTokens.filter (fun p => ¬(p.1 = email)) },
       now, [.login email]⟩ := by
  unfold strapiLoginFresh executeLoginAsStrapiUser
  rw [waitForHealth_fresh w st now hh]
  dsimp only
  rw [hl]
  rfl

/-- When the cached credential's age is at or past the reuse window,
`strapiLoginSendDatalayer` falls through to a fresh login (on the
delay-defaulted state). -/
theorem strapiLogin_stale (w : World) (st : SyncState) (now : Nat)
    (email : String) (c : UserCreds)
    (hc : (st.userTokens.find? (fun p => p.1 = email)).map (fun p => p.2) =
      some c)
    (hstale : ¬(now / 1000 - c.time / 1000 < reuseWindow st)) :
    strapiLoginSendDatalayer w st now email =
      strapiLoginFresh w (defaultDelay st) now email := by
  unfold strapiLoginSendDatalayer
  rw [hc]
  unfold reuseWindow at hstale
  dsimp only
  unfold defaultDelay at hstale ⊢
  rw [if_neg hstale]

/-! ## Claim C2 -/

/-- C2: a call to `strapiLoginSendDatalayer` while a cached credential's age
is below the reuse window returns the cached credential with no login wire
call and leaves the token cache unchanged; a call past the window issues a
login request and replaces the cached `\x7btoken, timestamp, profile\x7d`;
hence two sequential calls within the window issue exactly one login
request between them, and a later call past the window issues a second
one. -/
theorem credential_reuse_window (w : World) (st : SyncState)
    (now now2 now3 : Nat) (email : String) (c : UserCreds)
    (jwt user jwt2 user2 : String) (c1 : UserCreds) (st1 : SyncState)
    (hc : (st.userTokens.find? (fun p => p.1 = email)).map (fun p => p.2) =
      some c)
    (hh : HealthFresh w st now)
    (hc1 : c1 = { token := jwt, time := now, user := user })
    (hst1 : st1 = { defaultDelay st with userTokens :=
      (email, c1) ::
        (defaultDelay st).userTokens.filter (fun p => ¬(p.1 = email)) }) :
    (now / 1000 - c.time / 1000 < reuseWindow st →
      strapiLoginSendDatalayer w st now email =
        ⟨.ok (some c), w, defaultDelay st, now, []⟩) ∧
    (¬(now / 1000 - c.time / 1000 < reuseWindow st) →
      w.rem.login w.cnt.l = some { jwt := some jwt, user := user } →
      (strapiLoginSendDatalayer w st now email =
        ⟨.ok (some c1), bumpL w, st1, now, [.login email]⟩) ∧
      (now2 / 1000 - now / 1000 < reuseWindow st1 →
        strapiLoginSendDatalayer (bumpL w) st1 now2 email =
          ⟨.ok (some c1), bumpL w, defaultDelay st1, now2, []⟩ ∧
        countLogin ((strapiLoginSendDatalayer w st now email).tr ++
          (strapiLoginSendDatalayer (bumpL w) st1 now2 email).tr) = 1) ∧
      (¬(now3 / 1000 - c1.time / 1000 < reuseWindow st1) →
        HealthFresh (bumpL w) st1 now3 →
        (bumpL w).rem.login (bumpL w).cnt.l =
          some { jwt := some jwt2, user := user2 } →
        countLogin (strapiLoginSendDatalayer (bumpL w) st1 now3 email).tr =
          1)) := by
  have hfind1 : (st1.userTokens.find? (fun p => p.1 = email)).map
      (fun p => p.2) = some c1 := by
    subst hst1
    simp
  constructor
  · intro hlt
    exact strapiLogin_cached w st now email c hc hlt
  · intro hstale hl
    have hcall1 : strapiLoginSendDatalayer w st now email =
        ⟨.ok (some c1), bumpL w, st1, now, [.login email]⟩ := by
      rw [strapiLogin_stale w st now email c hc hstale,
        strapiLoginFresh_ok w (defaultDelay st) now email jwt user
          (hh.defaultDelay w st now) hl]
      subst hc1
      subst hst1
      rfl
    refine ⟨hcall1, ?_, ?_⟩
    · intro hfresh2
      have hcall2 := strapiLogin_cached (bumpL w) st1 now2 email c1 hfind1
        (by rw [hc1]; exact hfresh2)
      refine ⟨hcall2, ?_⟩
      rw [hcall1, hcall2]
      rfl
    · intro hstale3 hh3 hl2
      rw [strapiLogin_stale (bumpL w) st1 now3 email c1 hfind1 hstale3,
        strapiLoginFresh_ok (bumpL w) (defaultDelay st1) now3 email jwt2
          user2 (hh3.defaultDelay (bumpL w) st1 now3) hl2]
      rfl

/-- Concrete instance of `credential_reuse_window`: a stale cached
credential (age 200 000 s against the defaulted 180 000 window) triggers
one login; a follow-up call with a fresh cache issues none; a later stale
call issues a second one. -/
theorem credential_reuse_window_witness :
    ((staleCredState.userTokens.find? (fun p => p.1 = "u@x")).map
        (fun p => p.2) =
      some { token := "T0", time := 0, user := "U0" }) ∧
    HealthFresh loginWorld staleCredState 200000000 ∧
    (¬(200000000 / 1000 -
        ({ token := "T0", time := 0, user := "U0" } : UserCreds).time / 1000 <
        reuseWindow staleCredState) →
      loginWorld.rem.login loginWorld.cnt.l =
        some { jwt := some "J1", user := "U1" } →
      (strapiLoginSendDatalayer loginWorld staleCredState 200000000 "u@x" =
        ⟨.ok (some freshCred), bumpL loginWorld, freshCredState,
          200000000, [.login "u@x"]⟩) ∧
      (200000500 / 1000 - 200000000 / 1000 < reuseWindow freshCredState →
        strapiLoginSendDatalayer (bumpL loginWorld) freshCredState
            200000500 "u@x" =
          ⟨.ok (some freshCred), bumpL loginWorld,
            defaultDelay freshCredState, 200000500, []⟩ ∧
        countLogin
          ((strapiLoginSendDatalayer loginWorld staleCredState 200000000
            "u@x").tr ++
           (strapiLoginSendDatalayer (bumpL loginWorld) freshCredState
            200000500 "u@x").tr) = 1) ∧
      (¬(600000000000 / 1000 - freshCred.time / 1000 <
          reuseWindow freshCredState) →
        HealthFresh (bumpL loginWorld) freshCredState 600000000000 →
        (bumpL loginWorld).rem.login (bumpL loginWorld).cnt.l =
          some { jwt := some "J2", user := "U2" } →
        countLogin (strapiLoginSendDatalayer (bumpL loginWorld)
          freshCredState 600000000000 "u@x").tr = 1)) := by
  have h := credential_reuse_window loginWorld staleCredState
    200000000 200000500 600000000000 "u@x"
    { token := "T0", time := 0, user := "U0" } "J1" "U1" "J2" "U2"
    freshCred freshCredState
    (by rfl)
    ⟨rfl, by norm_num [loginWorld, staleCredState], by norm_num [loginWorld]⟩
    (by rfl)
    (by rfl)
  exact ⟨by rfl, ⟨rfl, by norm_num [loginWorld, staleCredState],
    by norm_num [loginWorld]⟩, h.2⟩

/-! ## Claim C7 -/

/-- A resolved `HEAD /_health` has a 2xx status (axios's default
`validateStatus`). -/
theorem axiosHeadResolves_2xx (raw : Option Nat) (s : Nat)
    (h : axiosHeadResolves raw = some s) : 200 ≤ s ∧ s < 300 := by
  unfold axiosHeadResolves at h
  match raw, h with
  | some t, h =>
    dsimp only at h
    by_cases ht : 200 ≤ t ∧ t < 300
    · rw [if_pos ht] at h
      cases h
      exact ht
    · rw [if_neg ht] at h
      cases h

/-- C7 (amended): `checkStrapiHealth` probes only when `now -
lastHealthCheckTime` exceeds the configured interval and otherwise returns
the cached boolean with no probe; when a probe runs and resolves (2xx
family) the shared state records healthy and the probe time; when it is
rejected the shared state records unhealthy but the probe timestamp is NOT
updated (so the next call may probe again within the interval of the
failed probe); with a non-positive configured interval the probe loop is
skipped, recording unhealthy and the time. -/
theorem checkStrapiHealth_cached_window (w : World) (st : SyncState)
    (now : Nat) :
    (¬((w.envHealthInterval.getD 120000 : Int) <
        (now : Int) - (st.lastHealthCheckTime : Int)) →
      checkStrapiHealth w st now = (st.isHealthy, w, st, [])) ∧
    (∀ s, (w.envHealthInterval.getD 120000 : Int) <
        (now : Int) - (st.lastHealthCheckTime : Int) →
      0 < (w.envHealthInterval.getD 120000 : Int) →
      axiosHeadResolves (w.rem.health w.cnt.h) = some s →
      checkStrapiHealth w st now =
        (true, bumpH w,
         { st with lastHealthCheckTime := now, isHealthy := true },
         [.health])) ∧
    ((w.envHealthInterval.getD 120000 : Int) <
        (now : Int) - (st.lastHealthCheckTime : Int) →
      0 < (w.envHealthInterval.getD 120000 : Int) →
      axiosHeadResolves (w.rem.health w.cnt.h) = none →
      checkStrapiHealth w st now =
        (false, bumpH w, { st with isHealthy := false }, [.health])) ∧
    ((w.envHealthInterval.getD 120000 : Int) <
        (now : Int) - (st.lastHealthCheckTime : Int) →
      ¬(0 < (w.envHealthInterval.getD 120000 : Int)) →
      checkStrapiHealth w st now =
        (false, w,
         { st with lastHealthCheckTime := now, isHealthy := false },
         [])) := by
  refine ⟨?_, ?_, ?_, ?_⟩
  · intro hf
    unfold checkStrapiHealth
    rw [if_neg hf]
  · intro s he hp hr
    obtain ⟨h2, h3⟩ := axiosHeadResolves_2xx (w.rem.health w.cnt.h) s hr
    unfold checkStrapiHealth
    rw [if_pos he]
    unfold executeStrapiHealthCheck
    rw [if_pos hp]
    dsimp only
    rw [hr]
    simp [bumpH, h3]
  · intro he hp hr
    unfold checkStrapiHealth
    rw [if_pos he]
    unfold executeStrapiHealthCheck
    rw [if_pos hp]
    dsimp only
    rw [hr]
    simp [bumpH]
  · intro he hp
    unfold checkStrapiHealth
    rw [if_pos he]
    unfold executeStrapiHealthCheck
    rw [if_neg hp]

/-- Counterexample to C7 as stated: with a failed probe the timestamp of
the "last active probe" is not recorded, so a second active probe runs one
millisecond after the first — far inside the 120 000 ms interval —
refuting "performs an active HEAD probe only when the time since the last
active probe exceeds the configured interval". -/
theorem checkStrapiHealth_reprobe_within_interval :
    ((checkStrapiHealth downHealthWorld staleHealthState 200000).2.2.2 =
      [Ev.health]) ∧
    ((checkStrapiHealth
        (checkStrapiHealth downHealthWorld staleHealthState 200000).2.1
        (checkStrapiHealth downHealthWorld staleHealthState 200000).2.2.1
        200001).2.2.2 = [Ev.health]) ∧
    ((200001 : Nat) - 200000 ≤ 120000) := by
  refine ⟨rfl, rfl, by norm_num⟩

/-! ## Claim C3 -/

/-- C3, evaluated at the failing input: deleting region `"reg_1"` with a
fresh cached credential against a remote that rejects the probe (the type
is absent — call 0 returns 404) sends its type-existence probe to
`GET /api/product-variants`, not to `GET /api/regions`, and then — because
`strapiSendDataLayer` maps the probe failure to a resolved
`\x7bstatus: 400\x7d` — proceeds to `DELETE /api/regions/reg_1` anyway;
`createRegionInStrapi`, by contrast, probes `GET /api/regions` first. -/
theorem deleteRegionInStrapi_probes_product_variants :
    ((deleteRegionInStrapi cexWorld cexState 1000500 { id := "reg_1" }
        "svc@x").tr =
      [.entry .get "product-variants" none "T" none,
       .entry .delete "regions" (some "reg_1") "T" none]) ∧
    ((deleteRegionInStrapi cexWorld cexState 1000500 { id := "reg_1" }
        "svc@x").out =
      .ok { status := 200, idField := none, medusaIdField := none,
            dataField := some (.obj []) }) ∧
    ((createRegionInStrapi okWorld cexState 1000500 "reg_1" "svc@x").tr.head? =
      some (.entry .get "regions" none "T" none)) := by
  exact ⟨rfl, rfl, rfl⟩

/-! ## Claim C1 -/

/-- Counterexample to C1 as stated: in the data-layer revision, a request
whose bearer token the remote rejects (entry call 0 is rejected) is NOT
retried — the trace holds exactly one entry attempt and zero login
requests, the cached credential is left in place (not invalidated), and
the failure is immediately surfaced as `\x7bstatus: 400\x7d`. -/
theorem strapiSendDataLayer_does_not_retry_auth_failure :
    ((strapiSendDataLayer cexWorld cexState 1000500
        { method := .put, type_ := "products", id := some "p1",
          email := "svc@x" }).out = .ok { status := 400 }) ∧
    ((strapiSendDataLayer cexWorld cexState 1000500
        { method := .put, type_ := "products", id := some "p1",
          email := "svc@x" }).tr =
      [.entry .put "products" (some "p1") "T" none]) ∧
    (countLogin (strapiSendDataLayer cexWorld cexState 1000500
        { method := .put, type_ := "products", id := some "p1",
          email := "svc@x" }).tr = 0) ∧
    ((strapiSendDataLayer cexWorld cexState 1000500
        { method := .put, type_ := "products", id := some "p1",
          email := "svc@x" }).st.userTokens = cexState.userTokens) := by
  exact ⟨rfl, rfl, rfl, rfl⟩

/-- C1 (amended): the data-layer revision issues an entry request exactly
once and maps any rejection — auth rejections included — to
`\x7bstatus: 400\x7d` with no re-login, no retry and no cache
invalidation; the one-retry-after-fresh-login behaviour exists only in the
oldest revision's `strapiSend`, which on any thrown transport error logs
in exactly once more and retries exactly once with the freshly cached
token, surfacing that single retry's outcome. -/
theorem entry_send_retry_policy :
    (∀ w st now p c,
      ((st.userTokens.find? (fun q => q.1 = p.email)).map (fun q => q.2) =
        some c) →
      (now / 1000 - c.time / 1000 < reuseWindow st) →
      HealthFresh w st now →
      w.rem.entry w.cnt.e = none →
      strapiSendDataLayer w st now p =
        ⟨.ok { status := 400 }, bumpE w, defaultDelay st, now,
         [.entry p.method p.type_ p.id c.token (p.data.map sendBody)]⟩) ∧
    (∀ w st m ty id email t0 jwt,
      w.healthOk = true →
      ((st.userTokens.find? (fun p => p.1 = email)).map (fun p => p.2) =
        some t0) →
      w.entryResp w.cntE = none →
      w.loginResp w.cntL = some jwt →
      StrapiLegacy.strapiSend w st m ty id email =
        ⟨(match w.entryResp (w.cntE + 1) with
          | some r => .ok (some r)
          | none => .err),
         { w with cntE := w.cntE + 2, cntL := w.cntL + 1 },
         { userTokens := (email, jwt) ::
             st.userTokens.filter (fun p => ¬(p.1 = email)) },
         [.entry m ty id t0, .login email, .entry m ty id jwt]⟩) := by
  constructor
  · intro w st now p c hc hfresh hh hrej
    rw [strapiSendDataLayer_cached w st now p c hc hfresh hh, hrej]
  · intro w st m ty id email t0 jwt hw hc hrej hlog
    have h1 : StrapiLegacy.executeStrapiSend w st m ty t0 id =
        ⟨.err, { w with cntE := w.cntE + 1 }, st, [.entry m ty id t0]⟩ := by
      unfold StrapiLegacy.executeStrapiSend
      simp [hw, hrej]
    have h2 : StrapiLegacy.loginAsStrapiUser { w with cntE := w.cntE + 1 }
        st email =
        ⟨.ok (some jwt), { w with cntE := w.cntE + 1, cntL := w.cntL + 1 },
         { userTokens := (email, jwt) ::
             st.userTokens.filter (fun p => ¬(p.1 = email)) },
         [.login email]⟩ := by
      unfold StrapiLegacy.loginAsStrapiUser
      simp [hw, hlog]
    have h3 : ∀ st2 : StrapiLegacy.LState,
        StrapiLegacy.executeStrapiSend
          { w with cntE := w.cntE + 1, cntL := w.cntL + 1 } st2 m ty jwt id =
        ⟨(match w.entryResp (w.cntE + 1) with
          | some r => .ok (some r)
          | none => .err),
         { w with cntE := w.cntE + 2, cntL := w.cntL + 1 }, st2,
         [.entry m ty id jwt]⟩ := by
      intro st2
      unfold StrapiLegacy.executeStrapiSend
      cases hr : w.entryResp (w.cntE + 1) <;> simp [hw, hr]
    unfold StrapiLegacy.strapiSend
    rw [hc]
    dsimp only
    rw [h1]
    dsimp only
    rw [h2]
    dsimp only
    rw [show (List.find? (fun p => decide (p.1 = email))
        ((email, jwt) :: st.userTokens.filter (fun p => ¬(p.1 = email)))) =
        some (email, jwt) from by simp]
    dsimp only [Option.map]
    rw [h3]
    simp

/-! ## Write-freedom of the read-only paths -/

theorem noWrites_nil : NoWrites [] := by
  intro e he
  cases he

theorem noWrites_append (a b : List Ev) (ha : NoWrites a) (hb : NoWrites b) :
    NoWrites (a ++ b) := by
  intro e he
  rcases List.mem_append.mp he with h | h
  · exact ha e h
  · exact hb e h

theorem checkStrapiHealth_noWrites (w : World) (st : SyncState) (now : Nat) :
    NoWrites (checkStrapiHealth w st now).2.2.2 := by
  unfold checkStrapiHealth executeStrapiHealthCheck
  dsimp only
  split
  · split
    · split
      · intro e he
        simp only [List.mem_singleton] at he
        subst he
        rfl
      · intro e he
        simp only [List.mem_singleton] at he
        subst he
        rfl
    · intro e he
      cases he
  · intro e he
    cases he

theorem waitForHealthGo_noWrites (n : Nat) :
    ∀ (w : World) (st : SyncState) (now : Nat) (tr0 : List Ev),
    NoWrites tr0 → NoWrites (waitForHealthGo n w st now tr0).tr := by
  induction n with
  | zero => intro w st now tr0 h0; exact h0
  | succ n ih =>
    intro w st now tr0 h0
    unfold waitForHealthGo
    rcases hck : checkStrapiHealth w st now with ⟨b, w', st', tr'⟩
    have htr' : NoWrites tr' := by
      have := checkStrapiHealth_noWrites w st now
      rw [hck] at this
      exact this
    cases b
    · exact ih w' st' (now + 1000) (tr0 ++ tr') (noWrites_append _ _ h0 htr')
    · exact noWrites_append _ _ h0 htr'

theorem waitForHealth_noWrites (w : World) (st : SyncState) (now : Nat) :
    NoWrites (waitForHealth w st now).tr :=
  waitForHealthGo_noWrites w.fuel w st now [] noWrites_nil

theorem noWrites_singleton (e : Ev) (h : e.isEntryWrite = false) :
    NoWrites [e] := by
  intro x hx
  simp only [List.mem_singleton] at hx
  subst hx
  exact h

theorem executeLoginAsStrapiUser_noWrites (w : World) (st : SyncState)
    (now : Nat) (email : String) :
    NoWrites (executeLoginAsStrapiUser w st now email).tr := by
  unfold executeLoginAsStrapiUser
  rcases hwf : waitForHealth w st now with ⟨o, w', st', now', tr'⟩
  have htr' : NoWrites tr' := by
    have := waitForHealth_noWrites w st now
    rw [hwf] at this
    exact this
  cases o with
  | ok a =>
    dsimp only
    split <;>
      exact noWrites_append _ _ htr' (noWrites_singleton _ rfl)
  | err => exact htr'
  | div => exact htr'

theorem strapiLoginFresh_noWrites (w : World) (st : SyncState) (now : Nat)
    (email : String) : NoWrites (strapiLoginFresh w st now email).tr := by
  unfold strapiLoginFresh
  rcases hl : executeLoginAsStrapiUser w st now email with ⟨o, w', st', now', tr'⟩
  have htr' : NoWrites tr' := by
    have := executeLoginAsStrapiUser_noWrites w st now email
    rw [hl] at this
    exact this
  cases o with
  | ok resp =>
    dsimp only
    cases hj : resp.jwt <;> exact htr'
  | err => exact htr'
  | div => exact htr'

theorem strapiLoginSendDatalayer_noWrites (w : World) (st : SyncState)
    (now : Nat) (email : String) :
    NoWrites (strapiLoginSendDatalayer w st now email).tr := by
  unfold strapiLoginSendDatalayer
  split
  all_goals try dsimp only
  all_goals repeat' split
  all_goals first
    | exact noWrites_nil
    | exact strapiLoginFresh_noWrites _ _ _ _

theorem executeStrapiSend_get_noWrites (w : World) (st : SyncState)
    (now : Nat) (type_ : String) (token : String) (id : Option String)
    (body : Option JVal) :
    NoWrites (executeStrapiSend w st now .get type_ token id body).tr := by
  unfold executeStrapiSend
  rcases hwf : waitForHealth w st now with ⟨o, w', st', now', tr'⟩
  have htr' : NoWrites tr' := by
    have := waitForHealth_noWrites w st now
    rw [hwf] at this
    exact this
  cases o with
  | ok a =>
    dsimp only
    split <;>
      exact noWrites_append _ _ htr' (noWrites_singleton _ rfl)
  | err => exact htr'
  | div => exact htr'

theorem strapiSendDataLayer_get_noWrites (w : World) (st : SyncState)
    (now : Nat) (p : StrapiSendParams) (hm : p.method = .get) :
    NoWrites (strapiSendDataLayer w st now p).tr := by
  unfold strapiSendDataLayer
  rcases hl : strapiLoginSendDatalayer w st now p.email with
    ⟨o, w', st', now', tr'⟩
  have htr' : NoWrites tr' := by
    have := strapiLoginSendDatalayer_noWrites w st now p.email
    rw [hl] at this
    exact this
  cases o with
  | ok creds =>
    cases creds with
    | none => exact htr'
    | some c =>
      dsimp only
      rcases hs : executeStrapiSend w' st' now' p.method p.type_ c.token p.id
          (p.data.map sendBody) with ⟨o2, w2, st2, now2, tr2⟩
      have htr2 : NoWrites tr2 := by
        have := executeStrapiSend_get_noWrites w' st' now' p.type_ c.token
          p.id (p.data.map sendBody)
        rw [← hm, hs] at this
        exact this
      cases o2 <;> exact noWrites_append _ _ htr' htr2
  | err => exact htr'
  | div => exact htr'

theorem hasTypeGuard_noWrites (w : World) (st : SyncState) (now : Nat)
    (type_ : String) (email : String) :
    NoWrites (hasTypeGuard w st now type_ email).tr := by
  unfold hasTypeGuard
  rcases hg : getType w st now type_ email with ⟨o, w', st', now', tr'⟩
  have htr' : NoWrites tr' := by
    have := strapiSendDataLayer_get_noWrites w st now
      { method := .get, type_ := type_, email := email } rfl
    unfold getType at hg
    rw [hg] at this
    exact this
  cases o <;> exact htr'

theorem hasTypeGuard_not_err (w : World) (st : SyncState) (now : Nat)
    (type_ : String) (email : String) :
    (hasTypeGuard w st now type_ email).out ≠ Out.err := by
  unfold hasTypeGuard
  rcases hg : getType w st now type_ email with ⟨o, w', st', now', tr'⟩
  cases o <;> simp

theorem noWrites_count (tr : List Ev) (h : NoWrites tr) :
    countEntryWrites tr = 0 := by
  unfold countEntryWrites
  rw [List.filter_eq_nil.mpr]
  · rfl
  · intro e he
    rw [h e he]
    simp

/-! ## Claim C4 -/

/-- A change event whose fields list is disjoint from the allow-list fails
`verifyDataContainsFields` (its fallback over the event's own keys `id`,
`fields` also finds nothing when the allow-list contains neither). -/
theorem verifyDataContainsFields_disjoint (ev : EventData)
    (fs updateFields : List String)
    (hf : ev.fields = some fs)
    (hdisj : ∀ f ∈ fs, f ∉ updateFields)
    (hid : "id" ∉ updateFields)
    (hfld : "fields" ∉ updateFields) :
    verifyDataContainsFields ev updateFields = false := by
  unfold verifyDataContainsFields jsTruthyFind eventKeys
  rw [hf]
  dsimp only
  have h1 : fs.find? (fun f => updateFields.contains f) = none := by
    rw [List.find?_eq_none]
    intro x hx
    simpa using hdisj x hx
  rw [h1]
  dsimp only
  rw [if_neg (by simp)]
  simp only [Option.isSome_some, if_pos, List.any_cons, List.any_nil,
    Bool.or_false, Bool.or_eq_false_iff, List.any_eq_false,
    decide_eq_true_eq]
  constructor
  · intro uf huf h
    subst h
    exact hid huf
  · intro uf huf h
    subst h
    exact hfld huf

/-- C4 (amended): an update event whose fields list is disjoint from the
entity kind's allow-list causes no outbound write for products, variants
and regions.  For variants the guard runs before any remote traffic, so
the transport receives zero calls and the state is untouched; for products
and regions the type-existence probe — a read-only GET, plus whatever
health and login traffic it entails — still reaches the transport first,
and the operation then returns the `\x7bstatus: 400\x7d` no-op (or blocks
in the health gate) with zero entry writes. -/
theorem update_noop_on_disjoint_fields :
    (∀ (w : World) (st : SyncState) (now : Nat) (ev : EventData)
      (email : String) (fs : List String),
      ev.fields = some fs →
      (∀ f ∈ fs, f ∉ variantUpdateFields) →
      updateProductVariantInStrapi w st now ev email =
        ⟨.ok { status := 400 }, w, st, now, []⟩) ∧
    (∀ (w : World) (st : SyncState) (now : Nat) (ev : EventData)
      (email : String) (fs : List String),
      ev.fields = some fs →
      (∀ f ∈ fs, f ∉ productUpdateFields) →
      ((updateProductInStrapi w st now ev email).out =
          Out.ok { status := 400 } ∨
        (updateProductInStrapi w st now ev email).out = Out.div) ∧
      countEntryWrites (updateProductInStrapi w st now ev email).tr = 0) ∧
    (∀ (w : World) (st : SyncState) (now : Nat) (ev : EventData)
      (email : String) (fs : List String),
      ev.fields = some fs →
      (∀ f ∈ fs, f ∉ regionUpdateFields) →
      ((updateRegionInStrapi w st now ev email).out =
          Out.ok { status := 400 } ∨
        (updateRegionInStrapi w st now ev email).out = Out.div) ∧
      countEntryWrites (updateRegionInStrapi w st now ev email).tr = 0) := by
  refine ⟨?_, ?_, ?_⟩
  · intro w st now ev email fs hf hdisj
    have hv : verifyDataContainsFields ev variantUpdateFields = false :=
      verifyDataContainsFields_disjoint ev fs variantUpdateFields hf hdisj
        (by decide) (by decide)
    have hfind : fs.find? (fun f => variantUpdateFields.contains f) = none := by
      rw [List.find?_eq_none]
      intro x hx
      simpa using hdisj x hx
    unfold updateProductVariantInStrapi
    rw [hf]
    dsimp only
    rw [hfind, hv]
    rfl
  · intro w st now ev email fs hf hdisj
    have hv : verifyDataContainsFields ev productUpdateFields = false :=
      verifyDataContainsFields_disjoint ev fs productUpdateFields hf hdisj
        (by decide) (by decide)
    unfold updateProductInStrapi
    rcases hg : hasTypeGuard w st now "products" email with
      ⟨o, w', st', now', tr'⟩
    have htr' : NoWrites tr' := by
      have := hasTypeGuard_noWrites w st now "products" email
      rw [hg] at this
      exact this
    cases o with
    | ok hasType =>
      dsimp only
      cases hasType with
      | false =>
        rw [if_pos (by simp)]
        exact ⟨Or.inl rfl, noWrites_count tr' htr'⟩
      | true =>
        rw [if_neg (by simp), if_pos (by simp [hv])]
        exact ⟨Or.inl rfl, noWrites_count tr' htr'⟩
    | err =>
      have := hasTypeGuard_not_err w st now "products" email
      rw [hg] at this
      exact absurd rfl this
    | div =>
      exact ⟨Or.inr rfl, noWrites_count tr' htr'⟩
  · intro w st now ev email fs hf hdisj
    have hv : verifyDataContainsFields ev regionUpdateFields = false :=
      verifyDataContainsFields_disjoint ev fs regionUpdateFields hf hdisj
        (by decide) (by decide)
    unfold updateRegionInStrapi
    rcases hg : hasTypeGuard w st now "regions" email with
      ⟨o, w', st', now', tr'⟩
    have htr' : NoWrites tr' := by
      have := hasTypeGuard_noWrites w st now "regions" email
      rw [hg] at this
      exact this
    cases o with
    | ok hasType =>
      dsimp only
      cases hasType with
      | false =>
        rw [if_pos (by simp)]
        exact ⟨Or.inl rfl, noWrites_count tr' htr'⟩
      | true =>
        rw [if_neg (by simp), if_pos (by simp [hv])]
        exact ⟨Or.inl rfl, noWrites_count tr' htr'⟩
    | err =>
      have := hasTypeGuard_not_err w st now "regions" email
      rw [hg] at this
      exact absurd rfl this
    | div =>
      exact ⟨Or.inr rfl, noWrites_count tr' htr'⟩

/-- Counterexample to C4 as stated: a product update event whose fields list
(`["handle"]`) is disjoint from the product allow-list returns the
`\x7bstatus: 400\x7d` no-op, yet the transport layer receives one call —
the read-only `GET /api/products` type probe — so "the transport layer
receives zero calls for that event" fails. -/
theorem updateProduct_disjoint_fields_still_probes :
    (∀ f ∈ ["handle"], f ∉ productUpdateFields) ∧
    ((updateProductInStrapi okWorld cexState 1000500
        { id := "p1", fields := some ["handle"] } "svc@x").out =
      Out.ok { status := 400 }) ∧
    ((updateProductInStrapi okWorld cexState 1000500
        { id := "p1", fields := some ["handle"] } "svc@x").tr =
      [.entry .get "products" none "T" none]) ∧
    ¬((updateProductInStrapi okWorld cexState 1000500
        { id := "p1", fields := some ["handle"] } "svc@x").tr = []) := by
  refine ⟨by decide, rfl, rfl, ?_⟩
  intro h
  rw [show (updateProductInStrapi okWorld cexState 1000500
      { id := "p1", fields := some ["handle"] } "svc@x").tr =
    [.entry .get "products" none "T" none] from rfl] at h
  cases h

/-! ## Claim C5 -/

theorem defaultDelay_idem (st : SyncState) :
    defaultDelay (defaultDelay st) = defaultDelay st := by
  unfold defaultDelay
  by_cases h : st.strapiRetryDelay.getD 0 = 0 <;> simp [h]

theorem reuseWindow_defaultDelay (st : SyncState) :
    reuseWindow (defaultDelay st) = reuseWindow st := by
  unfold reuseWindow
  rw [defaultDelay_idem]

theorem reuseWindow_congr (st st' : SyncState)
    (h : st.strapiRetryDelay = st'.strapiRetryDelay) :
    reuseWindow st = reuseWindow st' := by
  unfold reuseWindow defaultDelay
  rw [h]
  split <;> simp [h]

/-- With a fresh cached credential and fresh health, the `hasType` guard
resolves true (whatever the remote answers to the probe — even a 404 was
already mapped to a resolved `\x7bstatus: 400\x7d`), leaving exactly the
read-only probe on the wire. -/
theorem hasTypeGuard_cached (w : World) (st : SyncState) (now : Nat)
    (ty : String) (email : String) (c : UserCreds)
    (hc : (st.userTokens.find? (fun q => q.1 = email)).map (fun q => q.2) =
      some c)
    (hfresh : now / 1000 - c.time / 1000 < reuseWindow st)
    (hh : HealthFresh w st now) :
    hasTypeGuard w st now ty email =
      ⟨.ok true, bumpE w, defaultDelay st, now,
       [.entry .get ty none c.token none]⟩ := by
  unfold hasTypeGuard getType
  rw [strapiSendDataLayer_cached w st now
    { method := .get, type_ := ty, email := email } c hc hfresh hh]
  cases w.rem.entry w.cnt.e <;> rfl

/-- Reading the ignore marker just written for the same id and side yields
exactly the not-yet-expired test. -/
theorem shouldIgnore_after_addIgnore (w : World) (st : SyncState)
    (t now2 : Nat) (id : String) :
    shouldIgnore_ (defaultDelay (addIgnore_ w st t id "strapi")) now2 id
      "strapi" = decide (now2 < t + effTtl w * 1000) := by
  unfold shouldIgnore_
  rw [defaultDelay_redis]
  unfold addIgnore_ effTtl
  simp

/-- C5: after `addIgnore_(id, "strapi")` writes the marker at time `t`, an
inbound product update or delete event for that id processed while
`now < t + ttl*1000` (ttl = `strapi_ignore_threshold || 3` seconds) is
skipped with a `\x7bstatus: 400\x7d` result and zero outbound entry
writes; the same event processed at or after the expiry goes through
normally — the canonical entity is fetched and exactly one outbound write
(`PUT /api/products/<id>` resp. `DELETE /api/products/<id>`) is issued,
returning the remote's response. -/
theorem ignore_marker_ttl (w : World) (st : SyncState) (t now2 : Nat)
    (ev : EventData) (email : String) (c : UserCreds) (prod : JVal)
    (resp : EntryResp)
    (hc : (st.userTokens.find? (fun q => q.1 = email)).map (fun q => q.2) =
      some c)
    (hfresh : now2 / 1000 - c.time / 1000 < reuseWindow st)
    (hh : HealthFresh w st now2)
    (hvf : verifyDataContainsFields ev productUpdateFields = true)
    (hret : w.rem.prodRetrieve ev.id = some prod)
    (hserve : w.rem.entry (w.cnt.e + 1) = some resp) :
    (now2 < t + effTtl w * 1000 →
      ((updateProductInStrapi w (addIgnore_ w st t ev.id "strapi") now2 ev
          email).out = Out.ok { status := 400 } ∧
       countEntryWrites (updateProductInStrapi w
          (addIgnore_ w st t ev.id "strapi") now2 ev email).tr = 0) ∧
      ((deleteProductInStrapi w (addIgnore_ w st t ev.id "strapi") now2 ev
          email).out = Out.ok { status := 400 } ∧
       countEntryWrites (deleteProductInStrapi w
          (addIgnore_ w st t ev.id "strapi") now2 ev email).tr = 0)) ∧
    (t + effTtl w * 1000 ≤ now2 →
      ((updateProductInStrapi w (addIgnore_ w st t ev.id "strapi") now2 ev
          email).tr.filter Ev.isEntryWrite =
        [.entry .put "products" (entityId prod) c.token
          (some (sendBody prod))]) ∧
      ((updateProductInStrapi w (addIgnore_ w st t ev.id "strapi") now2 ev
          email).out =
        Out.ok { status := resp.status,
                 idField := sendBody.jGet' resp.body "id",
                 medusaIdField := sendBody.jGet' resp.body "medusa_id",
                 dataField := some resp.body }) ∧
      ((deleteProductInStrapi w (addIgnore_ w st t ev.id "strapi") now2 ev
          email).tr.filter Ev.isEntryWrite =
        [.entry .delete "products" (some ev.id) c.token none]) ∧
      ((deleteProductInStrapi w (addIgnore_ w st t ev.id "strapi") now2 ev
          email).out =
        Out.ok { status := resp.status,
                 idField := sendBody.jGet' resp.body "id",
                 medusaIdField := sendBody.jGet' resp.body "medusa_id",
                 dataField := some resp.body })) := by
  set stI := addIgnore_ w st t ev.id "strapi" with hstI
  have hcI : (stI.userTokens.find? (fun q => q.1 = email)).map
      (fun q => q.2) = some c := hc
  have hfreshI : now2 / 1000 - c.time / 1000 < reuseWindow stI := by
    rw [reuseWindow_congr stI st rfl]
    exact hfresh
  have hhI : HealthFresh w stI now2 := hh
  have hguard := hasTypeGuard_cached w stI now2 "products" email c hcI
    hfreshI hhI
  have hc2 : ((defaultDelay stI).userTokens.find? (fun q => q.1 = email)).map
      (fun q => q.2) = some c := by
    rw [defaultDelay_userTokens]
    exact hcI
  have hfresh2 : now2 / 1000 - c.time / 1000 < reuseWindow (defaultDelay stI) := by
    rw [reuseWindow_defaultDelay]
    exact hfreshI
  have hh2 : HealthFresh (bumpE w) (defaultDelay stI) now2 := by
    obtain ⟨a, b, d⟩ := hhI
    refine ⟨?_, ?_, ?_⟩
    · rw [defaultDelay_isHealthy]; exact a
    · rw [defaultDelay_lastHealthCheckTime]; exact b
    · exact d
  have hserve2 : (bumpE w).rem.entry (bumpE w).cnt.e = some resp := hserve
  have hret2 : (bumpE w).rem.prodRetrieve ev.id = some prod := hret
  constructor
  · intro hlive
    have hig : shouldIgnore_ (defaultDelay stI) now2 ev.id "strapi" = true := by
      rw [hstI, shouldIgnore_after_addIgnore]
      simpa using hlive
    constructor
    · unfold updateProductInStrapi
      rw [hguard]
      dsimp only
      rw [if_neg (by simp), if_neg (by simp [hvf]), if_pos (by simp [hig])]
      exact ⟨rfl, rfl⟩
    · unfold deleteProductInStrapi
      rw [hguard]
      dsimp only
      rw [if_neg (by simp), if_pos (by simp [hig])]
      exact ⟨rfl, rfl⟩
  · intro hexp
    have hig : shouldIgnore_ (defaultDelay stI) now2 ev.id "strapi" = false := by
      rw [hstI, shouldIgnore_after_addIgnore]
      simp
      omega
    have hsend : ∀ q : StrapiSendParams, q.email = email →
        strapiSendDataLayer (bumpE w) (defaultDelay stI) now2 q =
        ⟨.ok { status := resp.status,
               idField := sendBody.jGet' resp.body "id",
               medusaIdField := sendBody.jGet' resp.body "medusa_id",
               dataField := some resp.body },
         bumpE (bumpE w), defaultDelay (defaultDelay stI), now2,
         [.entry q.method q.type_ q.id c.token (q.data.map sendBody)]⟩ := by
      intro q hq
      rw [strapiSendDataLayer_cached (bumpE w) (defaultDelay stI) now2 q c
        (by rw [hq]; exact hc2) hfresh2 hh2, hserve2]
    refine ⟨?_, ?_, ?_, ?_⟩
    · unfold updateProductInStrapi
      rw [hguard]
      dsimp only
      rw [if_neg (by simp), if_neg (by simp [hvf]), if_neg (by simp [hig]),
        hret2]
      dsimp only
      unfold updateEntryInStrapi processStrapiEntry
      rw [hsend _ rfl]
      rfl
    · unfold updateProductInStrapi
      rw [hguard]
      dsimp only
      rw [if_neg (by simp), if_neg (by simp [hvf]), if_neg (by simp [hig]),
        hret2]
      dsimp only
      unfold updateEntryInStrapi processStrapiEntry
      rw [hsend _ rfl]
    · unfold deleteProductInStrapi
      rw [hguard]
      dsimp only
      rw [if_neg (by simp), if_neg (by simp [hig])]
      unfold deleteEntryInStrapi processStrapiEntry
      rw [hsend _ rfl]
      rfl
    · unfold deleteProductInStrapi
      rw [hguard]
      dsimp only
      rw [if_neg (by simp), if_neg (by simp [hig])]
      unfold deleteEntryInStrapi processStrapiEntry
      rw [hsend _ rfl]

/-- Concrete run of `ignore_marker_ttl`: with the marker written at
`t = 999000` ms and the event arriving at `now = 1000500` ms (inside the
default 3 s window) both the update and the delete are suppressed; with the
marker written at `t = 0` (expired long before `now`) the update goes
through and puts the translated product on the wire. -/
theorem ignore_marker_ttl_witness :
    ((cexState.userTokens.find? (fun q => q.1 = "svc@x")).map
        (fun q => q.2) =
      some { token := "T", time := 1000000, user := "U" }) ∧
    (1000500 / 1000 - 1000000 / 1000 < reuseWindow cexState) ∧
    (verifyDataContainsFields { id := "p1", fields := some ["title"] }
      productUpdateFields = true) ∧
    ((updateProductInStrapi ignoreWorld
        (addIgnore_ ignoreWorld cexState 999000 "p1" "strapi") 1000500
        { id := "p1", fields := some ["title"] } "svc@x").out =
      Out.ok { status := 400 }) ∧
    (countEntryWrites (deleteProductInStrapi ignoreWorld
        (addIgnore_ ignoreWorld cexState 999000 "p1" "strapi") 1000500
        { id := "p1", fields := some ["title"] } "svc@x").tr = 0) ∧
    ((updateProductInStrapi ignoreWorld
        (addIgnore_ ignoreWorld cexState 0 "p1" "strapi") 1000500
        { id := "p1", fields := some ["title"] } "svc@x").tr.filter
        Ev.isEntryWrite =
      [.entry .put "products" (entityId prodEntity) "T"
        (some (sendBody prodEntity))]) := by
  have h1 := ignore_marker_ttl ignoreWorld cexState 999000 1000500
    { id := "p1", fields := some ["title"] } "svc@x"
    { token := "T", time := 1000000, user := "U" } prodEntity
    { status := 200, body := .obj [] } rfl (by decide)
    ⟨rfl, by decide, by decide⟩ rfl rfl rfl
  have h2 := ignore_marker_ttl ignoreWorld cexState 0 1000500
    { id := "p1", fields := some ["title"] } "svc@x"
    { token := "T", time := 1000000, user := "U" } prodEntity
    { status := 200, body := .obj [] } rfl (by decide)
    ⟨rfl, by decide, by decide⟩ rfl rfl rfl
  exact ⟨rfl, by decide, rfl, (h1.1 (by decide)).1.1,
    (h1.1 (by decide)).2.2, (h2.2 (by decide)).1⟩

/-! ## Claim C10 -/

/-- C10: `fetchUserToken(email)` assumes a cached credential exists — for any
email with no entry in the token cache it dereferences
`userTokens[email].token` without a guard and throws a `TypeError` rather
than returning `undefined`. -/
theorem fetchUserToken_throws_on_missing_entry (st : SyncState)
    (email : String)
    (h : st.userTokens.find? (fun p => p.1 = email) = none) :
    fetchUserToken st email = Out.err := by
  unfold fetchUserToken
  rw [h]
  rfl

/-- Concrete instance of `fetchUserToken_throws_on_missing_entry`: the empty
cache has no entry for `"nobody@x"` and the call throws. -/
theorem fetchUserToken_throws_on_missing_entry_witness :
    (({} : SyncState).userTokens.find? (fun p => p.1 = "nobody@x") = none) ∧
    fetchUserToken {} "nobody@x" = Out.err :=
  ⟨rfl, fetchUserToken_throws_on_missing_entry {} "nobody@x" rfl⟩

/-! ## Claim C6 -/

/-- C6: the transport layer retries exactly the HTTP 429 responses, with a
retry ceiling of at least 100 attempts; with an `x-retry-after` header of
`h` seconds the delay of retry `rc` is `rc * 1000 * h` ms (so at least the
advertised `h` seconds from the first retry on); without it the delay is
the absolute distance from `floor(now/1000)` to the `x-ratelimit-reset`
value plus a 2-second safety margin, in ms; in both branches the computed
delay is stored as the module-wide `strapiRetryDelay`, which
`strapiLoginSendDatalayer` then uses as the credential-reuse window for
subsequent staleness decisions. -/
theorem axiosRetry_rate_limit_policy :
    (100 ≤ axiosRetryRetries) ∧
    (∀ s, axiosRetryCondition s = true ↔ s = 429) ∧
    (∀ rc h r now, (axiosRetryDelay rc (some h) r now).1 = rc * 1000 * h) ∧
    (∀ rc h r now, 1 ≤ rc →
      1000 * h ≤ (axiosRetryDelay rc (some h) r now).1) ∧
    (∀ rc r now, (axiosRetryDelay rc none (some r) now).1 =
      (((r : Int) - ((now : Int) / 1000)).natAbs + 2) * 1000) ∧
    (∀ rc h r now,
      (axiosRetryDelay rc h r now).2 = (axiosRetryDelay rc h r now).1) ∧
    (∀ w st now email c d,
      st.strapiRetryDelay = some d → ¬(d = 0) →
      (st.userTokens.find? (fun p => p.1 = email)).map (fun p => p.2) =
        some c →
      (now / 1000 - c.time / 1000 < d →
        strapiLoginSendDatalayer w st now email =
          ⟨.ok (some c), w, st, now, []⟩) ∧
      (¬(now / 1000 - c.time / 1000 < d) →
        strapiLoginSendDatalayer w st now email =
          strapiLoginFresh w st now email)) := by
  refine ⟨by unfold axiosRetryRetries; omega, ?_, ?_, ?_, ?_, ?_, ?_⟩
  · intro s
    unfold axiosRetryCondition
    exact decide_eq_true_iff
  · intro rc h r now
    rfl
  · intro rc h r now hrc
    unfold axiosRetryDelay
    dsimp only
    calc 1000 * h = 1 * 1000 * h := by ring
    _ ≤ rc * 1000 * h := by
      apply Nat.mul_le_mul_right
      apply Nat.mul_le_mul_right
      exact hrc
  · intro rc r now
    rfl
  · intro rc h r now
    unfold axiosRetryDelay
    cases h <;> rfl
  · intro w st now email c d hd hd0 hc
    have hdef : defaultDelay st = st := by
      unfold defaultDelay
      rw [hd]
      simp [hd0]
    have hwin : reuseWindow st = d := by
      unfold reuseWindow
      rw [hdef, hd]
      rfl
    constructor
    · intro hlt
      have := strapiLogin_cached w st now email c hc (by rw [hwin]; exact hlt)
      rw [this, hdef]
    · intro hge
      unfold strapiLoginSendDatalayer
      rw [hc]
      have hcond : ¬(st.strapiRetryDelay.getD 0 = 0) := by
        rw [hd]; simpa using hd0
      rw [if_neg hcond]
      dsimp only
      rw [hd]
      dsimp only [Option.getD]
      rw [if_neg hge]

/-! ## Claim C9 -/

theorem traceAvoids_nil (p : Ev → Bool) : TraceAvoids p [] := by
  intro e he
  cases he

theorem traceAvoids_append (p : Ev → Bool) (a b : List Ev)
    (ha : TraceAvoids p a) (hb : TraceAvoids p b) :
    TraceAvoids p (a ++ b) := by
  intro e he
  rcases List.mem_append.mp he with h | h
  · exact ha e h
  · exact hb e h

theorem traceAvoids_singleton (p : Ev → Bool) (e : Ev) (h : p e = false) :
    TraceAvoids p [e] := by
  intro x hx
  simp only [List.mem_singleton] at hx
  subst hx
  exact h

theorem checkStrapiHealth_avoids (p : Ev → Bool) (hh : p .health = false)
    (w : World) (st : SyncState) (now : Nat) :
    TraceAvoids p (checkStrapiHealth w st now).2.2.2 := by
  unfold checkStrapiHealth executeStrapiHealthCheck
  dsimp only
  split
  · split
    · split
      · exact traceAvoids_singleton p _ hh
      · exact traceAvoids_singleton p _ hh
    · exact traceAvoids_nil p
  · exact traceAvoids_nil p

theorem waitForHealthGo_avoids (p : Ev → Bool) (hh : p .health = false)
    (n : Nat) :
    ∀ (w : World) (st : SyncState) (now : Nat) (tr0 : List Ev),
    TraceAvoids p tr0 → TraceAvoids p (waitForHealthGo n w st now tr0).tr := by
  induction n with
  | zero => intro w st now tr0 h0; exact h0
  | succ n ih =>
    intro w st now tr0 h0
    unfold waitForHealthGo
    rcases hck : checkStrapiHealth w st now with ⟨b, w', st', tr'⟩
    have htr' : TraceAvoids p tr' := by
      have := checkStrapiHealth_avoids p hh w st now
      rw [hck] at this
      exact this
    cases b
    · exact ih w' st' (now + 1000) (tr0 ++ tr')
        (traceAvoids_append p _ _ h0 htr')
    · exact traceAvoids_append p _ _ h0 htr'

theorem waitForHealth_avoids (p : Ev → Bool) (hh : p .health = false)
    (w : World) (st : SyncState) (now : Nat) :
    TraceAvoids p (waitForHealth w st now).tr :=
  waitForHealthGo_avoids p hh w.fuel w st now [] (traceAvoids_nil p)

theorem executeLoginAsStrapiSuperAdmin_avoids (p : Ev → Bool)
    (hh : p .health = false) (hal : p .adminLogin = false)
    (w : World) (st : SyncState) (now : Nat) :
    TraceAvoids p (executeLoginAsStrapiSuperAdmin w st now).tr := by
  unfold executeLoginAsStrapiSuperAdmin
  dsimp only
  split
  · exact traceAvoids_nil p
  · rcases hwf : waitForHealth w { st with lastAdminLoginAttemptTime := now }
        now with ⟨o, w', st', now', tr'⟩
    have htr' : TraceAvoids p tr' := by
      have := waitForHealth_avoids p hh w
        { st with lastAdminLoginAttemptTime := now } now
      rw [hwf] at this
      exact this
    cases o with
    | ok a =>
      dsimp only
      split <;>
        exact traceAvoids_append p _ _ htr' (traceAvoids_singleton p _ hal)
    | err => exact htr'
    | div => exact htr'

theorem executeStrapiAdminSend_avoids (p : Ev → Bool)
    (hh : p .health = false) (hal : p .adminLogin = false)
    (hap : ∀ s, p (.adminPost s) = false)
    (w : World) (st : SyncState) (now : Nat) (type_ : String) :
    TraceAvoids p (executeStrapiAdminSend w st now type_).tr := by
  unfold executeStrapiAdminSend
  rcases hl : executeLoginAsStrapiSuperAdmin w st now with
    ⟨o, w', st', now', tr'⟩
  have htr' : TraceAvoids p tr' := by
    have := executeLoginAsStrapiSuperAdmin_avoids p hh hal w st now
    rw [hl] at this
    exact this
  cases o with
  | ok a =>
    obtain ⟨token, u⟩ := a
    dsimp only
    split <;>
      exact traceAvoids_append p _ _ htr'
        (traceAvoids_singleton p _ (hap type_))
  | err => exact htr'
  | div => exact htr'

theorem registerSuperAdminUserInStrapi_avoids (p : Ev → Bool)
    (hh : p .health = false) (hal : p .adminLogin = false)
    (hap : ∀ s, p (.adminPost s) = false)
    (w : World) (st : SyncState) (now : Nat) :
    TraceAvoids p (registerSuperAdminUserInStrapi w st now).tr := by
  unfold registerSuperAdminUserInStrapi
  exact executeStrapiAdminSend_avoids p hh hal hap w st now "register-admin"

theorem registerOrLoginAdmin_avoids (p : Ev → Bool)
    (hh : p .health = false) (hal : p .adminLogin = false)
    (hap : ∀ s, p (.adminPost s) = false)
    (w : World) (st : SyncState) (now : Nat) :
    TraceAvoids p (registerOrLoginAdmin w st now).tr := by
  unfold registerOrLoginAdmin
  rcases hr : registerSuperAdminUserInStrapi w st now with
    ⟨o, w', st', now', tr'⟩
  have htr' : TraceAvoids p tr' := by
    have := registerSuperAdminUserInStrapi_avoids p hh hal hap w st now
    rw [hr] at this
    exact this
  cases o with
  | ok a =>
    exact traceAvoids_append p _ _ htr'
      (executeLoginAsStrapiSuperAdmin_avoids p hh hal w' st' now')
  | err =>
    exact traceAvoids_append p _ _ htr'
      (executeLoginAsStrapiSuperAdmin_avoids p hh hal w' st' now')
  | div => exact htr'

theorem executeLoginAsStrapiUser_avoids (p : Ev → Bool)
    (hh : p .health = false) (hlg : ∀ em, p (.login em) = false)
    (w : World) (st : SyncState) (now : Nat) (email : String) :
    TraceAvoids p (executeLoginAsStrapiUser w st now email).tr := by
  unfold executeLoginAsStrapiUser
  rcases hwf : waitForHealth w st now with ⟨o, w', st', now', tr'⟩
  have htr' : TraceAvoids p tr' := by
    have := waitForHealth_avoids p hh w st now
    rw [hwf] at this
    exact this
  cases o with
  | ok a =>
    dsimp only
    split <;>
      exact traceAvoids_append p _ _ htr'
        (traceAvoids_singleton p _ (hlg email))
  | err => exact htr'
  | div => exact htr'

theorem strapiLoginFresh_avoids (p : Ev → Bool)
    (hh : p .health = false) (hlg : ∀ em, p (.login em) = false)
    (w : World) (st : SyncState) (now : Nat) (email : String) :
    TraceAvoids p (strapiLoginFresh w st now email).tr := by
  unfold strapiLoginFresh
  rcases hl : executeLoginAsStrapiUser w st now email with
    ⟨o, w', st', now', tr'⟩
  have htr' : TraceAvoids p tr' := by
    have := executeLoginAsStrapiUser_avoids p hh hlg w st now email
    rw [hl] at this
    exact this
  cases o with
  | ok resp =>
    dsimp only
    cases hj : resp.jwt <;> exact htr'
  | err => exact htr'
  | div => exact htr'

theorem strapiLoginSendDatalayer_avoids (p : Ev → Bool)
    (hh : p .health = false) (hlg : ∀ em, p (.login em) = false)
    (w : World) (st : SyncState) (now : Nat) (email : String) :
    TraceAvoids p (strapiLoginSendDatalayer w st now email).tr := by
  unfold strapiLoginSendDatalayer
  split
  all_goals try dsimp only
  all_goals repeat' split
  all_goals first
    | exact traceAvoids_nil p
    | exact strapiLoginFresh_avoids p hh hlg _ _ _ _

theorem executeRegisterMedusaUser_avoids (p : Ev → Bool)
    (hh : p .health = false) (hal : p .adminLogin = false)
    (hru : p .registerMedusaUser = false)
    (w : World) (st : SyncState) (now : Nat) :
    TraceAvoids p (executeRegisterMedusaUser w st now).tr := by
  unfold executeRegisterMedusaUser
  rcases hl : executeLoginAsStrapiSuperAdmin w st now with
    ⟨o, w', st', now', tr'⟩
  have htr' : TraceAvoids p tr' := by
    have := executeLoginAsStrapiSuperAdmin_avoids p hh hal w st now
    rw [hl] at this
    exact this
  cases o with
  | ok a =>
    dsimp only
    rcases hwf : waitForHealth w' st' now' with ⟨o2, w2, st2, now2, tr2⟩
    have htr2 : TraceAvoids p tr2 := by
      have := waitForHealth_avoids p hh w' st' now'
      rw [hwf] at this
      exact this
    cases o2 with
    | ok b =>
      dsimp only
      split <;>
        exact traceAvoids_append p _ _
          (traceAvoids_append p _ _ htr' htr2)
          (traceAvoids_singleton p _ hru)
    | err => exact traceAvoids_append p _ _ htr' htr2
    | div => exact traceAvoids_append p _ _ htr' htr2
  | err => exact htr'
  | div => exact htr'

theorem registerDefaultMedusaUser_avoids (p : Ev → Bool)
    (hh : p .health = false) (hal : p .adminLogin = false)
    (hru : p .registerMedusaUser = false)
    (w : World) (st : SyncState) (now : Nat) :
    TraceAvoids p (registerDefaultMedusaUser w st now).tr := by
  unfold registerDefaultMedusaUser
  rcases hl : executeRegisterMedusaUser w st now with ⟨o, w', st', now', tr'⟩
  have htr' : TraceAvoids p tr' := by
    have := executeRegisterMedusaUser_avoids p hh hal hru w st now
    rw [hl] at this
    exact this
  cases o <;> exact htr'

theorem loginAsDefaultMedusaUser_avoids (p : Ev → Bool)
    (hh : p .health = false) (hlg : ∀ em, p (.login em) = false)
    (w : World) (st : SyncState) (now : Nat) :
    TraceAvoids p (loginAsDefaultMedusaUser w st now).tr := by
  unfold loginAsDefaultMedusaUser
  rcases hl : strapiLoginSendDatalayer w st now w.defaultEmail with
    ⟨o, w', st', now', tr'⟩
  have htr' : TraceAvoids p tr' := by
    have := strapiLoginSendDatalayer_avoids p hh hlg w st now w.defaultEmail
    rw [hl] at this
    exact this
  cases o <;> exact htr'

theorem registerOrLoginDefaultMedusaUser_avoids (p : Ev → Bool)
    (hh : p .health = false) (hal : p .adminLogin = false)
    (hru : p .registerMedusaUser = false)
    (hlg : ∀ em, p (.login em) = false)
    (w : World) (st : SyncState) (now : Nat) :
    TraceAvoids p (registerOrLoginDefaultMedusaUser w st now).tr := by
  unfold registerOrLoginDefaultMedusaUser
  rcases hr : registerDefaultMedusaUser w st now with ⟨o, w', st', now', tr'⟩
  have htr' : TraceAvoids p tr' := by
    have := registerDefaultMedusaUser_avoids p hh hal hru w st now
    rw [hr] at this
    exact this
  cases o with
  | ok a =>
    exact traceAvoids_append p _ _ htr'
      (loginAsDefaultMedusaUser_avoids p hh hlg w' st' now')
  | err =>
    exact traceAvoids_append p _ _ htr'
      (loginAsDefaultMedusaUser_avoids p hh hlg w' st' now')
  | div => exact htr'

/-- C9: the bootstrap `intializeServer` runs its steps strictly in order
and conditionally.  A thrown admin register-or-login error aborts the
bootstrap unchanged; an admin step that leaves no privileged token skips
the default-user step and the sync entirely; a default-user step that
yields no usable user keeps the bulk resynchronisation call off the wire;
and whenever the resynchronisation call does appear on the wire, both
credential steps succeeded — the admin step returned with a non-empty
privileged token and the user step returned a credential with a non-empty
user — and the whole trace decomposes as the admin step's calls, then the
user step's calls, then the sync phase's calls. -/
theorem bootstrap_sequence_order (w : World) (st : SyncState) (now : Nat) :
    (Ev.sync ∈ (intializeServer w st now).tr →
      ∃ (x : String × String) (w1 : World) (st1 : SyncState) (n1 : Nat)
        (tr1 : List Ev) (c : UserCreds) (w2 : World) (st2 : SyncState)
        (n2 : Nat) (tr2 : List Ev),
        registerOrLoginAdmin w st now = ⟨.ok x, w1, st1, n1, tr1⟩ ∧
        ¬(st1.strapiSuperAdminAuthToken = "") ∧
        registerOrLoginDefaultMedusaUser w1 st1 n1 =
          ⟨.ok (some c), w2, st2, n2, tr2⟩ ∧
        ¬(c.user = "") ∧
        (intializeServer w st now).tr =
          (tr1 ++ tr2) ++ (executeSync w2 st2 n2).tr) ∧
    (∀ (w1 : World) (st1 : SyncState) (n1 : Nat) (tr1 : List Ev),
      registerOrLoginAdmin w st now = ⟨.err, w1, st1, n1, tr1⟩ →
      intializeServer w st now = ⟨.err, w1, st1, n1, tr1⟩) ∧
    (∀ (x : String × String) (w1 : World) (st1 : SyncState) (n1 : Nat)
        (tr1 : List Ev),
      registerOrLoginAdmin w st now = ⟨.ok x, w1, st1, n1, tr1⟩ →
      st1.strapiSuperAdminAuthToken = "" →
      intializeServer w st now = ⟨.ok none, w1, st1, n1, tr1⟩) ∧
    (∀ (x : String × String) (w1 : World) (st1 : SyncState) (n1 : Nat)
        (tr1 : List Ev) (c : Option UserCreds) (w2 : World)
        (st2 : SyncState) (n2 : Nat) (tr2 : List Ev),
      registerOrLoginAdmin w st now = ⟨.ok x, w1, st1, n1, tr1⟩ →
      ¬(st1.strapiSuperAdminAuthToken = "") →
      registerOrLoginDefaultMedusaUser w1 st1 n1 =
        ⟨.ok c, w2, st2, n2, tr2⟩ →
      (∀ cr, c = some cr → cr.user = "") →
      TraceAvoids Ev.isSync (intializeServer w st now).tr) := by
  refine ⟨?_, ?_, ?_, ?_⟩
  · intro hs
    obtain ⟨o1, w1, st1, n1, tr1, hr1⟩ :
        ∃ o1 w1 st1 n1 tr1,
          registerOrLoginAdmin w st now = ⟨o1, w1, st1, n1, tr1⟩ :=
      ⟨_, _, _, _, _, rfl⟩
    have hA : TraceAvoids Ev.isSync tr1 := by
      have := registerOrLoginAdmin_avoids Ev.isSync rfl rfl (fun _ => rfl)
        w st now
      rw [hr1] at this
      exact this
    unfold intializeServer at hs
    rw [hr1] at hs
    cases o1 with
    | ok a =>
      dsimp only at hs
      by_cases htok : st1.strapiSuperAdminAuthToken = ""
      · rw [if_neg (by simp [htok])] at hs
        exact absurd (hA _ hs) (by decide)
      · rw [if_pos htok] at hs
        obtain ⟨o2, w2, st2, n2, tr2, hr2⟩ :
            ∃ o2 w2 st2 n2 tr2,
              registerOrLoginDefaultMedusaUser w1 st1 n1 =
                ⟨o2, w2, st2, n2, tr2⟩ :=
          ⟨_, _, _, _, _, rfl⟩
        have hU : TraceAvoids Ev.isSync tr2 := by
          have := registerOrLoginDefaultMedusaUser_avoids Ev.isSync rfl rfl
            rfl (fun _ => rfl) w1 st1 n1
          rw [hr2] at this
          exact this
        rw [hr2] at hs
        cases o2 with
        | ok c =>
          dsimp only at hs
          cases c with
          | none =>
            rcases List.mem_append.mp hs with h | h
            · exact absurd (hA _ h) (by decide)
            · exact absurd (hU _ h) (by decide)
          | some cr =>
            dsimp only at hs
            by_cases hu : cr.user = ""
            · rw [if_neg (by simp [hu])] at hs
              rcases List.mem_append.mp hs with h | h
              · exact absurd (hA _ h) (by decide)
              · exact absurd (hU _ h) (by decide)
            · refine ⟨a, w1, st1, n1, tr1, cr, w2, st2, n2, tr2, hr1, htok,
                hr2, hu, ?_⟩
              unfold intializeServer
              rw [hr1]
              dsimp only
              rw [if_pos htok, hr2]
              dsimp only
              rw [if_pos hu]
              rcases hsx : executeSync w2 st2 n2 with ⟨o3, w3, st3, n3, tr3⟩
              cases o3 with
              | ok s =>
                dsimp only
                split <;> rfl
              | err => rfl
              | div => rfl
        | err =>
          dsimp only at hs
          rcases List.mem_append.mp hs with h | h
          · exact absurd (hA _ h) (by decide)
          · exact absurd (hU _ h) (by decide)
        | div =>
          dsimp only at hs
          rcases List.mem_append.mp hs with h | h
          · exact absurd (hA _ h) (by decide)
          · exact absurd (hU _ h) (by decide)
    | err =>
      dsimp only at hs
      exact absurd (hA _ hs) (by decide)
    | div =>
      dsimp only at hs
      exact absurd (hA _ hs) (by decide)
  · intro w1 st1 n1 tr1 h
    unfold intializeServer
    rw [h]
  · intro x w1 st1 n1 tr1 h hempty
    unfold intializeServer
    rw [h]
    dsimp only
    rw [if_neg (by simp [hempty])]
  · intro x w1 st1 n1 tr1 c w2 st2 n2 tr2 h1 htok h2 hfail
    have hA1 : TraceAvoids Ev.isSync tr1 := by
      have := registerOrLoginAdmin_avoids Ev.isSync rfl rfl (fun _ => rfl)
        w st now
      rw [h1] at this
      exact this
    have hA2 : TraceAvoids Ev.isSync tr2 := by
      have := registerOrLoginDefaultMedusaUser_avoids Ev.isSync rfl rfl rfl
        (fun _ => rfl) w1 st1 n1
      rw [h2] at this
      exact this
    unfold intializeServer
    rw [h1]
    dsimp only
    rw [if_pos htok, h2]
    dsimp only
    cases c with
    | none => exact traceAvoids_append _ _ _ hA1 hA2
    | some cr =>
      dsimp only
      rw [if_neg (by simp [hfail cr rfl])]
      exact traceAvoids_append _ _ _ hA1 hA2

/-! ## Claim C8 -/

theorem jGet_cons_eq (q : String × JVal) (l : List (String × JVal))
    (k : String) (h : q.1 = k) : jGet (q :: l) k = some q.2 := by
  unfold jGet
  rw [List.find?_cons_of_pos _ (by simpa using h)]
  rfl

theorem jGet_cons_ne (q : String × JVal) (l : List (String × JVal))
    (k : String) (h : ¬(q.1 = k)) : jGet (q :: l) k = jGet l k := by
  unfold jGet
  rw [List.find?_cons_of_neg _ (by simpa using h)]

theorem jGet_append_left (X Y : List (String × JVal)) (k : String)
    (h : ∀ p ∈ X, ¬(p.1 = k)) : jGet (X ++ Y) k = jGet Y k := by
  induction X with
  | nil => rfl
  | cons q X ih =>
    rw [List.cons_append, jGet_cons_ne q _ k (h q (List.mem_cons_self q X))]
    exact ih (fun p hp => h p (List.mem_cons_of_mem q hp))

theorem jGet_append_some (X Y : List (String × JVal)) (k : String)
    (v : JVal) (h : jGet X k = some v) : jGet (X ++ Y) k = some v := by
  induction X with
  | nil => cases h
  | cons q X ih =>
    by_cases hq : q.1 = k
    · rw [List.cons_append, jGet_cons_eq q _ k hq]
      rw [jGet_cons_eq q X k hq] at h
      exact h
    · rw [List.cons_append, jGet_cons_ne q _ k hq]
      rw [jGet_cons_ne q X k hq] at h
      exact ih h

theorem jGet_eq_none (l : List (String × JVal)) (k : String)
    (h : ∀ p ∈ l, ¬(p.1 = k)) : jGet l k = none := by
  have := jGet_append_left l [] k h
  simpa using this

theorem notin_keys (l : List (String × JVal)) (k : String)
    (h : k ∉ l.map (fun p => p.1)) : ∀ p ∈ l, ¬(p.1 = k) := by
  intro p hp hpk
  apply h
  rw [← hpk]
  exact List.mem_map_of_mem (fun p => p.1) hp

theorem map_keep_of_ne (l : List (String × JVal)) (k : String) (v : JVal)
    (h : ∀ p ∈ l, ¬(p.1 = k)) :
    l.map (fun p => if p.1 = k then (k, v) else p) = l := by
  induction l with
  | nil => rfl
  | cons q l ih =>
    simp only [List.map_cons]
    rw [if_neg (h q (List.mem_cons_self q l)),
      ih (fun p hp => h p (List.mem_cons_of_mem q hp))]

theorem filter_keep_of_ne (l : List (String × JVal)) (k : String)
    (h : ∀ p ∈ l, ¬(p.1 = k)) : objDel l k = l := by
  unfold objDel
  induction l with
  | nil => rfl
  | cons q l ih =>
    rw [List.filter_cons_of_pos (by simpa using h q (List.mem_cons_self q l))]
    rw [ih (fun p hp => h p (List.mem_cons_of_mem q hp))]

theorem mem_keys_isSome (l : List (String × JVal)) (k : String) :
    k ∈ l.map (fun p => p.1) ↔ (jGet l k).isSome = true := by
  induction l with
  | nil => simp [jGet]
  | cons q l ih =>
    by_cases hq : q.1 = k
    · simp [List.map_cons, jGet_cons_eq q l k hq, hq]
    · have hq' : ¬(k = q.1) := fun h => hq h.symm
      simp [List.map_cons, jGet_cons_ne q l k hq, hq', ih]

theorem keysDistinct_to_nodup (l : List String)
    (h : keysDistinct l = true) : l.Nodup := by
  induction l with
  | nil => exact List.nodup_nil
  | cons k rest ih =>
    unfold keysDistinct at h
    rw [Bool.and_eq_true] at h
    refine List.nodup_cons.mpr ⟨?_, ih h.2⟩
    intro hmem
    have hm : rest.contains k = true := by simpa using hmem
    have hc : rest.contains k = false := by simpa using h.1
    rw [hm] at hc
    cases hc

theorem filter_ne_keep (l : List (String × JVal)) (k : String)
    (h : ∀ p ∈ l, ¬(p.1 = k)) :
    l.filter (fun p => ¬(p.1 = k)) = l := by
  induction l with
  | nil => rfl
  | cons q l ih =>
    rw [List.filter_cons_of_pos (by simpa using h q (List.mem_cons_self q l))]
    rw [ih (fun p hp => h p (List.mem_cons_of_mem q hp))]

/-- The snapshot loop of `translateIdsToMedusaIds` on a well-formed object,
with the bindings still to process (`B`) framed by the already-processed
prefix (`A`) and the already-appended suffix (`C`): every object value is
translated in place, the unique scalar `"id"` binding is removed and its
value is appended at the very end under `"medusa_id"`. -/
theorem transLoop_char (rec : JVal → JVal) (B : List (String × JVal)) :
    ∀ (A C : List (String × JVal)),
    ((A ++ B ++ C).map (fun p => p.1)).Nodup →
    ("id" ∈ B.map (fun p => p.1) →
      "medusa_id" ∉ (A ++ B ++ C).map (fun p => p.1)) →
    (∀ p ∈ B, p.1 = "id" → p.2.isObject = false) →
    transLoop rec (B.map (fun p => p.1)) (A ++ B ++ C) =
      A ++ (B.filterMap (tStep rec) ++ (C ++ tApp B)) := by
  induction B with
  | nil =>
    intro A C hnd hmid hsc
    simp [transLoop, tApp]
  | cons p B' ih =>
    obtain ⟨k, v⟩ := p
    intro A C hnd hmid hsc
    have hndn : (A.map (fun p => p.1) ++
        (k :: (B'.map (fun p => p.1) ++ C.map (fun p => p.1)))).Nodup := by
      simpa [List.append_assoc] using hnd
    have hcons := List.nodup_middle.mp hndn
    obtain ⟨hknot, hrest⟩ := List.nodup_cons.mp hcons
    have hkA : k ∉ A.map (fun p => p.1) := fun hx => hknot (by simp [hx])
    have hkB : k ∉ B'.map (fun p => p.1) := fun hx => hknot (by simp [hx])
    have hkC : k ∉ C.map (fun p => p.1) := fun hx => hknot (by simp [hx])
    have hAk : ∀ p ∈ A, ¬(p.1 = k) := notin_keys A k hkA
    have hBk : ∀ p ∈ B', ¬(p.1 = k) := notin_keys B' k hkB
    have hCk : ∀ p ∈ C, ¬(p.1 = k) := notin_keys C k hkC
    have hget : jGet (A ++ ((k, v) :: B') ++ C) k = some v := by
      rw [show A ++ ((k, v) :: B') ++ C = A ++ ((k, v) :: (B' ++ C)) from
        by simp]
      rw [jGet_append_left A _ k hAk, jGet_cons_eq _ _ _ rfl]
    have hsc' : ∀ p ∈ B', p.1 = "id" → p.2.isObject = false :=
      fun p hp => hsc p (List.mem_cons_of_mem _ hp)
    simp only [List.map_cons]
    simp only [transLoop]
    rw [hget]
    dsimp only
    by_cases hv : v.isObject = true
    · rw [if_pos hv]
      have hset : objSet (A ++ ((k, v) :: B') ++ C) k (rec v) =
          (A ++ [(k, rec v)]) ++ B' ++ C := by
        unfold objSet
        rw [hget]
        rw [if_pos (show (some v).isSome = true from rfl)]
        simp only [List.map_append, List.map_cons]
        simp only [if_true]
        rw [map_keep_of_ne A k _ hAk, map_keep_of_ne B' k _ hBk,
          map_keep_of_ne C k _ hCk]
        simp
      rw [hset]
      have hnd' : (((A ++ [(k, rec v)]) ++ B' ++ C).map
          (fun p => p.1)).Nodup := by
        simpa [List.append_assoc] using hnd
      have hmid' : "id" ∈ B'.map (fun p => p.1) →
          "medusa_id" ∉ ((A ++ [(k, rec v)]) ++ B' ++ C).map
            (fun p => p.1) := by
        intro hin
        have := hmid (by simp [hin])
        simpa [List.append_assoc] using this
      rw [ih (A ++ [(k, rec v)]) C hnd' hmid' hsc']
      simp [tStep, tApp, List.filterMap_cons, hv]
    · have hv' : v.isObject = false := by simpa using hv
      rw [if_neg hv]
      by_cases hk : k = "id"
      · rw [if_pos hk]
        subst hk
        have hmidnot : "medusa_id" ∉
            ((A ++ (("id", v) :: B') ++ C).map (fun p => p.1)) :=
          hmid (by simp)
        have hmA : "medusa_id" ∉ A.map (fun p => p.1) :=
          fun hx => hmidnot (by simp [hx])
        have hmB : "medusa_id" ∉ B'.map (fun p => p.1) :=
          fun hx => hmidnot (by simp [hx])
        have hmC : "medusa_id" ∉ C.map (fun p => p.1) :=
          fun hx => hmidnot (by simp [hx])
        have hAm := notin_keys A "medusa_id" hmA
        have hBm := notin_keys B' "medusa_id" hmB
        have hCm := notin_keys C "medusa_id" hmC
        have hnone : jGet (A ++ (("id", v) :: B') ++ C) "medusa_id" =
            none := by
          rw [show A ++ (("id", v) :: B') ++ C =
            A ++ (("id", v) :: (B' ++ C)) from by simp]
          rw [jGet_append_left A _ _ hAm, jGet_cons_ne _ _ _ (by simp)]
          exact jGet_eq_none _ _ (fun p hp => by
            rcases List.mem_append.mp hp with h | h
            · exact hBm p h
            · exact hCm p h)
        have hsetm : objSet (A ++ (("id", v) :: B') ++ C) "medusa_id" v =
            A ++ (("id", v) :: B') ++ C ++ [("medusa_id", v)] := by
          unfold objSet
          rw [hnone]
          rfl
        have hdel : objDel
            (A ++ (("id", v) :: B') ++ C ++ [("medusa_id", v)]) "id" =
            A ++ B' ++ (C ++ [("medusa_id", v)]) := by
          unfold objDel
          rw [List.filter_append, List.filter_append, List.filter_append]
          rw [List.filter_cons_of_neg (by simp)]
          rw [filter_ne_keep A "id" hAk, filter_ne_keep B' "id" hBk,
            filter_ne_keep C "id" hCk,
            List.filter_cons_of_pos (by simp)]
          simp
        rw [hsetm, hdel]
        have hnd' : ((A ++ B' ++ (C ++ [("medusa_id", v)])).map
            (fun p => p.1)).Nodup := by
          have base : ("medusa_id" :: (A.map (fun p => p.1) ++
              (B'.map (fun p => p.1) ++ C.map (fun p => p.1)))).Nodup :=
            List.nodup_cons.mpr
              ⟨by simp [List.mem_append, hmA, hmB, hmC], hrest⟩
          have hperm := (List.perm_append_singleton "medusa_id"
            (A.map (fun p => p.1) ++
              (B'.map (fun p => p.1) ++ C.map (fun p => p.1)))).symm
          have := hperm.nodup base
          simpa [List.append_assoc] using this
        have hmid' : "id" ∈ B'.map (fun p => p.1) →
            "medusa_id" ∉ (A ++ B' ++ (C ++ [("medusa_id", v)])).map
              (fun p => p.1) :=
          fun h => absurd h hkB
        rw [ih A (C ++ [("medusa_id", v)]) hnd' hmid' hsc']
        simp [tStep, tApp, List.filterMap_cons, hv']
      · rw [if_neg hk]
        rw [show A ++ ((k, v) :: B') ++ C = (A ++ [(k, v)]) ++ B' ++ C from
          by simp]
        have hnd' : (((A ++ [(k, v)]) ++ B' ++ C).map
            (fun p => p.1)).Nodup := by
          simpa [List.append_assoc] using hnd
        have hmid' : "id" ∈ B'.map (fun p => p.1) →
            "medusa_id" ∉ ((A ++ [(k, v)]) ++ B' ++ C).map
              (fun p => p.1) := by
          intro hin
          have := hmid (by simp [hin])
          simpa [List.append_assoc] using this
        rw [ih (A ++ [(k, v)]) C hnd' hmid' hsc']
        simp [tStep, tApp, List.filterMap_cons, hv', hk]

theorem transFuel_scalar (n : Nat) (v : JVal) (h : v.isObject = false) :
    transFuel n v = v := by
  cases n with
  | zero => rfl
  | succ n =>
    cases v with
    | obj kvs => exact absurd h (by simp [JVal.isObject])
    | arr xs => exact absurd h (by simp [JVal.isObject])
    | str s => rfl
    | num i => rfl
    | bool b => rfl
    | null => rfl
    | undef => rfl

theorem specRenameIds_scalar (v : JVal) (h : v.isObject = false) :
    specRenameIds v = v := by
  cases v with
  | obj kvs => exact absurd h (by simp [JVal.isObject])
  | arr xs => exact absurd h (by simp [JVal.isObject])
  | str s => rfl
  | num i => rfl
  | bool b => rfl
  | null => rfl
  | undef => rfl

theorem jEqvF_refl_scalar (m : Nat) (v : JVal) (h : v.isObject = false)
    (hm : 1 ≤ m) : jEqvF m v v = true := by
  obtain ⟨m', rfl⟩ : ∃ m', m = m' + 1 := ⟨m - 1, by omega⟩
  cases v with
  | obj kvs => exact absurd h (by simp [JVal.isObject])
  | arr xs => exact absurd h (by simp [JVal.isObject])
  | str s => simp [jEqvF]
  | num i => simp [jEqvF]
  | bool b => simp [jEqvF]
  | null => rfl
  | undef => rfl

theorem hasKeyDeep_scalar (key : String) (v : JVal)
    (h : v.isObject = false) : hasKeyDeep key v = false := by
  cases v with
  | obj kvs => exact absurd h (by simp [JVal.isObject])
  | arr xs => exact absurd h (by simp [JVal.isObject])
  | str s => rfl
  | num i => rfl
  | bool b => rfl
  | null => rfl
  | undef => rfl

theorem jSize_pos (v : JVal) : 1 ≤ jSize v := by
  cases v with
  | obj kvs => exact Nat.le_add_right 1 _
  | arr xs => exact Nat.le_add_right 1 _
  | str s => exact Nat.le_refl 1
  | num i => exact Nat.le_refl 1
  | bool b => exact Nat.le_refl 1
  | null => exact Nat.le_refl 1
  | undef => exact Nat.le_refl 1

theorem jSizePairs_mem (kvs : List (String × JVal)) (p : String × JVal)
    (hp : p ∈ kvs) : jSize p.2 ≤ jSizePairs kvs := by
  induction kvs with
  | nil => cases hp
  | cons q kvs ih =>
    rcases List.mem_cons.mp hp with h | h
    · subst h
      exact Nat.le_add_right _ _
    · exact le_trans (ih h) (Nat.le_add_left _ _)

theorem jSizeList_mem (xs : List JVal) (x : JVal) (hx : x ∈ xs) :
    jSize x ≤ jSizeList xs := by
  induction xs with
  | nil => cases hx
  | cons y xs ih =>
    rcases List.mem_cons.mp hx with h | h
    · subst h
      exact Nat.le_add_right _ _
    · exact le_trans (ih h) (Nat.le_add_left _ _)

theorem payloadOkPairs_mem (kvs : List (String × JVal))
    (h : payloadOkPairs kvs = true) :
    ∀ p ∈ kvs, payloadOk p.2 = true ∧
      (p.1 = "id" → p.2.isObject = false) := by
  induction kvs with
  | nil => intro p hp; cases hp
  | cons q kvs ih =>
    obtain ⟨k0, v0⟩ := q
    unfold payloadOkPairs at h
    rw [Bool.and_eq_true, Bool.and_eq_true] at h
    obtain ⟨⟨h1, h2⟩, h3⟩ := h
    intro p hp
    rcases List.mem_cons.mp hp with hh | hh
    · subst hh
      refine ⟨h2, ?_⟩
      intro hk
      by_cases hobj : v0.isObject = true
      · exfalso
        simp [hobj] at h1
        exact h1 hk
      · simpa using hobj
    · exact ih h3 p hh

theorem payloadOkList_mem (xs : List JVal) (h : payloadOkList xs = true) :
    ∀ x ∈ xs, payloadOk x = true := by
  induction xs with
  | nil => intro x hx; cases hx
  | cons y xs ih =>
    unfold payloadOkList at h
    rw [Bool.and_eq_true] at h
    intro x hx
    rcases List.mem_cons.mp hx with hh | hh
    · subst hh
      exact h.1
    · exact ih h.2 x hh

mutual

theorem jSize_specRename : ∀ v : JVal, jSize (specRenameIds v) = jSize v
  | .obj kvs => by
    show 1 + jSizePairs (specRenamePairs kvs) = 1 + jSizePairs kvs
    rw [jSize_specRenamePairs kvs]
  | .arr xs => by
    show 1 + jSizeList (specRenameList xs) = 1 + jSizeList xs
    rw [jSize_specRenameList xs]
  | .str s => rfl
  | .num i => rfl
  | .bool b => rfl
  | .null => rfl
  | .undef => rfl

theorem jSize_specRenameList : ∀ xs : List JVal,
    jSizeList (specRenameList xs) = jSizeList xs
  | [] => rfl
  | x :: xs => by
    show jSize (specRenameIds x) + jSizeList (specRenameList xs) =
      jSize x + jSizeList xs
    rw [jSize_specRename x, jSize_specRenameList xs]

theorem jSize_specRenamePairs : ∀ kvs : List (String × JVal),
    jSizePairs (specRenamePairs kvs) = jSizePairs kvs
  | [] => rfl
  | (k, v) :: rest => by
    show jSize (specRenameIds v) + jSizePairs (specRenamePairs rest) =
      jSize v + jSizePairs rest
    rw [jSize_specRename v, jSize_specRenamePairs rest]

end

theorem tApp_cons_id (k0 : String) (v0 : JVal) (kvs : List (String × JVal))
    (hk : k0 = "id") (hv : v0.isObject = false) :
    tApp ((k0, v0) :: kvs) = ("medusa_id", v0) :: tApp kvs := by
  unfold tApp
  rw [List.filterMap_cons]
  dsimp only
  rw [if_neg (by simp [hv]), if_pos hk]

theorem tApp_cons_skip (k0 : String) (v0 : JVal)
    (kvs : List (String × JVal))
    (h : v0.isObject = true ∨ ¬(k0 = "id")) :
    tApp ((k0, v0) :: kvs) = tApp kvs := by
  unfold tApp
  rw [List.filterMap_cons]
  dsimp only
  rcases h with h | h
  · rw [if_pos h]
  · by_cases hv : v0.isObject = true
    · rw [if_pos hv]
    · rw [if_neg hv, if_neg h]

theorem tApp_keys (kvs : List (String × JVal)) :
    ∀ p ∈ tApp kvs, p.1 = "medusa_id" := by
  intro p hp
  unfold tApp at hp
  rcases List.mem_filterMap.mp hp with ⟨q, hq, hfq⟩
  by_cases h1 : q.2.isObject = true
  · rw [if_pos h1] at hfq
    cases hfq
  · rw [if_neg h1] at hfq
    by_cases h2 : q.1 = "id"
    · rw [if_pos h2] at hfq
      have : ("medusa_id", q.2) = p := by simpa using hfq
      rw [← this]
    · rw [if_neg h2] at hfq
      cases hfq

theorem jGet_tApp_ne (kvs : List (String × JVal)) (k : String)
    (hk : ¬(k = "medusa_id")) : jGet (tApp kvs) k = none := by
  apply jGet_eq_none
  intro p hp hpk
  apply hk
  rw [← hpk]
  exact tApp_keys kvs p hp

theorem jGet_tApp_mid (kvs : List (String × JVal)) :
    (∀ p ∈ kvs, p.1 = "id" → p.2.isObject = false) →
    jGet (tApp kvs) "medusa_id" = jGet kvs "id" := by
  induction kvs with
  | nil => intro _; rfl
  | cons q kvs ih =>
    intro hsc
    obtain ⟨k0, v0⟩ := q
    have hsc' : ∀ p ∈ kvs, p.1 = "id" → p.2.isObject = false :=
      fun p hp => hsc p (List.mem_cons_of_mem _ hp)
    by_cases hid : k0 = "id"
    · have hv : v0.isObject = false :=
        hsc (k0, v0) (List.mem_cons_self _ _) hid
      rw [tApp_cons_id k0 v0 kvs hid hv]
      rw [jGet_cons_eq _ _ _ rfl, jGet_cons_eq _ _ _ hid]
    · rw [tApp_cons_skip k0 v0 kvs (Or.inr hid)]
      rw [jGet_cons_ne _ _ _ hid]
      exact ih hsc'

theorem fm_keys_sub (rec : JVal → JVal) (kvs : List (String × JVal)) :
    ∀ p ∈ kvs.filterMap (tStep rec), p.1 ∈ kvs.map (fun p => p.1) := by
  intro p hp
  rcases List.mem_filterMap.mp hp with ⟨q, hq, hfq⟩
  unfold tStep at hfq
  by_cases hobj : q.2.isObject = true
  · rw [if_pos hobj] at hfq
    have : (q.1, rec q.2) = p := by simpa using hfq
    rw [← this]
    dsimp only
    exact List.mem_map_of_mem _ hq
  · rw [if_neg hobj] at hfq
    by_cases hid : q.1 = "id"
    · rw [if_pos hid] at hfq
      cases hfq
    · rw [if_neg hid] at hfq
      have : q = p := by simpa using hfq
      rw [← this]
      exact List.mem_map_of_mem _ hq

theorem fm_key_ne_id (rec : JVal → JVal) (kvs : List (String × JVal))
    (hsc : ∀ p ∈ kvs, p.1 = "id" → p.2.isObject = false) :
    ∀ p ∈ kvs.filterMap (tStep rec), ¬(p.1 = "id") := by
  intro p hp
  rcases List.mem_filterMap.mp hp with ⟨q, hq, hfq⟩
  unfold tStep at hfq
  by_cases hobj : q.2.isObject = true
  · rw [if_pos hobj] at hfq
    have hqp : (q.1, rec q.2) = p := by simpa using hfq
    intro hpk
    have hq1 : q.1 = "id" := by
      rw [← hqp] at hpk
      simpa using hpk
    have := hsc q hq hq1
    rw [this] at hobj
    cases hobj
  · rw [if_neg hobj] at hfq
    by_cases hid : q.1 = "id"
    · rw [if_pos hid] at hfq
      cases hfq
    · rw [if_neg hid] at hfq
      have : q = p := by simpa using hfq
      rw [← this]
      exact hid

theorem jGet_fm_id (rec : JVal → JVal) (kvs : List (String × JVal))
    (hsc : ∀ p ∈ kvs, p.1 = "id" → p.2.isObject = false) :
    jGet (kvs.filterMap (tStep rec)) "id" = none :=
  jGet_eq_none _ _ (fm_key_ne_id rec kvs hsc)

theorem jGet_fm_mid (rec : JVal → JVal) (kvs : List (String × JVal))
    (hmidf : "medusa_id" ∉ kvs.map (fun p => p.1)) :
    jGet (kvs.filterMap (tStep rec)) "medusa_id" = none := by
  apply jGet_eq_none
  intro p hp hpk
  apply hmidf
  rw [← hpk]
  exact fm_keys_sub rec kvs p hp

theorem jGet_fm_ne (rec : JVal → JVal) (kvs : List (String × JVal))
    (k : String) (hk : ¬(k = "id")) :
    jGet (kvs.filterMap (tStep rec)) k =
      (jGet kvs k).map (fun v => if v.isObject = true then rec v else v) := by
  induction kvs with
  | nil => rfl
  | cons q kvs ih =>
    obtain ⟨k0, v0⟩ := q
    rw [List.filterMap_cons]
    by_cases hobj : v0.isObject = true
    · have hstep : tStep rec (k0, v0) = some (k0, rec v0) := by
        unfold tStep
        rw [if_pos hobj]
      rw [hstep]
      dsimp only
      by_cases hk0 : k0 = k
      · rw [jGet_cons_eq _ _ _ hk0, jGet_cons_eq _ _ _ hk0]
        simp [hobj]
      · rw [jGet_cons_ne _ _ _ hk0, jGet_cons_ne _ _ _ hk0]
        exact ih
    · by_cases hid : k0 = "id"
      · have hstep : tStep rec (k0, v0) = none := by
          unfold tStep
          rw [if_neg hobj, if_pos hid]
        rw [hstep]
        dsimp only
        rw [jGet_cons_ne _ _ _ (by
          intro h
          apply hk
          rw [← h, hid])]
        exact ih
      · have hstep : tStep rec (k0, v0) = some (k0, v0) := by
          unfold tStep
          rw [if_neg hobj, if_neg hid]
        rw [hstep]
        dsimp only
        by_cases hk0 : k0 = k
        · rw [jGet_cons_eq _ _ _ hk0, jGet_cons_eq _ _ _ hk0]
          simp [hobj]
        · rw [jGet_cons_ne _ _ _ hk0, jGet_cons_ne _ _ _ hk0]
          exact ih

theorem spec_keys (kvs : List (String × JVal)) :
    (specRenamePairs kvs).map (fun p => p.1) =
      kvs.map (fun p => if p.1 = "id" then "medusa_id" else p.1) := by
  induction kvs with
  | nil => rfl
  | cons q kvs ih =>
    obtain ⟨k0, v0⟩ := q
    simp only [specRenamePairs, List.map_cons]
    rw [ih]

theorem jGet_spec_ne (kvs : List (String × JVal)) (k : String)
    (hid : ¬(k = "id")) (hmid : ¬(k = "medusa_id")) :
    jGet (specRenamePairs kvs) k = (jGet kvs k).map specRenameIds := by
  induction kvs with
  | nil => rfl
  | cons q kvs ih =>
    obtain ⟨k0, v0⟩ := q
    simp only [specRenamePairs]
    by_cases hk0 : k0 = "id"
    · rw [if_pos hk0]
      rw [jGet_cons_ne _ _ _ (fun h => hmid h.symm)]
      rw [jGet_cons_ne _ _ _ (by
        intro h
        apply hid
        rw [← h, hk0])]
      exact ih
    · rw [if_neg hk0]
      by_cases hk0k : k0 = k
      · rw [jGet_cons_eq _ _ _ hk0k, jGet_cons_eq _ _ _ hk0k]
        rfl
      · rw [jGet_cons_ne _ _ _ hk0k, jGet_cons_ne _ _ _ hk0k]
        exact ih

theorem jGet_spec_mid (kvs : List (String × JVal)) :
    "medusa_id" ∉ kvs.map (fun p => p.1) →
    jGet (specRenamePairs kvs) "medusa_id" =
      (jGet kvs "id").map specRenameIds := by
  induction kvs with
  | nil => intro _; rfl
  | cons q kvs ih =>
    intro hmidf
    obtain ⟨k0, v0⟩ := q
    have hk0mid : ¬(k0 = "medusa_id") := fun h => hmidf (by simp [h])
    have hmidf' : "medusa_id" ∉ kvs.map (fun p => p.1) :=
      fun h => hmidf (by simp [h])
    simp only [specRenamePairs]
    by_cases hk0 : k0 = "id"
    · rw [if_pos hk0]
      rw [jGet_cons_eq _ _ _ rfl, jGet_cons_eq _ _ _ hk0]
      rfl
    · rw [if_neg hk0]
      rw [jGet_cons_ne _ _ _ hk0mid, jGet_cons_ne _ _ _ hk0]
      exact ih hmidf'

theorem jGet_spec_id (kvs : List (String × JVal)) :
    jGet (specRenamePairs kvs) "id" = none := by
  apply jGet_eq_none
  intro p hp hpk
  have hmem : p.1 ∈ (specRenamePairs kvs).map (fun p => p.1) :=
    List.mem_map_of_mem _ hp
  rw [spec_keys] at hmem
  rcases List.mem_map.mp hmem with ⟨q, hq, hfq⟩
  by_cases hid : q.1 = "id"
  · rw [if_pos hid] at hfq
    rw [← hfq] at hpk
    exact absurd hpk (by decide)
  · rw [if_neg hid] at hfq
    rw [← hfq] at hpk
    exact hid hpk

theorem hasKeyDeepPairs_append (key : String)
    (X Y : List (String × JVal)) :
    hasKeyDeepPairs key (X ++ Y) =
      (hasKeyDeepPairs key X || hasKeyDeepPairs key Y) := by
  induction X with
  | nil => simp [hasKeyDeepPairs]
  | cons q X ih =>
    obtain ⟨k0, v0⟩ := q
    simp [hasKeyDeepPairs, ih, Bool.or_assoc]

theorem hkd_tApp (kvs : List (String × JVal)) :
    hasKeyDeepPairs "id" (tApp kvs) = false := by
  induction kvs with
  | nil => rfl
  | cons q kvs ih =>
    obtain ⟨k0, v0⟩ := q
    by_cases hobj : v0.isObject = true
    · rw [tApp_cons_skip _ _ _ (Or.inl hobj)]
      exact ih
    · by_cases hid : k0 = "id"
      · rw [tApp_cons_id _ _ _ hid (by simpa using hobj)]
        simp only [hasKeyDeepPairs]
        rw [ih]
        simp [hasKeyDeep_scalar _ _ (by simpa using hobj)]
      · rw [tApp_cons_skip _ _ _ (Or.inr hid)]
        exact ih

theorem hkd_fm (rec : JVal → JVal) (kvs : List (String × JVal)) :
    payloadOkPairs kvs = true →
    (∀ p ∈ kvs, p.2.isObject = true → hasKeyDeep "id" (rec p.2) = false) →
    hasKeyDeepPairs "id" (kvs.filterMap (tStep rec)) = false := by
  induction kvs with
  | nil => intro _ _; rfl
  | cons q kvs ih =>
    intro hok hrec
    obtain ⟨k0, v0⟩ := q
    have hok' : payloadOkPairs kvs = true := by
      unfold payloadOkPairs at hok
      rw [Bool.and_eq_true, Bool.and_eq_true] at hok
      exact hok.2
    have hrec' : ∀ p ∈ kvs, p.2.isObject = true →
        hasKeyDeep "id" (rec p.2) = false :=
      fun p hp => hrec p (List.mem_cons_of_mem _ hp)
    rw [List.filterMap_cons]
    by_cases hobj : v0.isObject = true
    · have hstep : tStep rec (k0, v0) = some (k0, rec v0) := by
        unfold tStep
        rw [if_pos hobj]
      rw [hstep]
      dsimp only
      simp only [hasKeyDeepPairs]
      rw [ih hok' hrec']
      have hk0 : ¬(k0 = "id") := by
        intro h
        have := (payloadOkPairs_mem _ hok (k0, v0)
          (List.mem_cons_self _ _)).2 h
        rw [this] at hobj
        cases hobj
      simp [hk0, hrec (k0, v0) (List.mem_cons_self _ _) hobj]
    · by_cases hid : k0 = "id"
      · have hstep : tStep rec (k0, v0) = none := by
          unfold tStep
          rw [if_neg hobj, if_pos hid]
        rw [hstep]
        exact ih hok' hrec'
      · have hstep : tStep rec (k0, v0) = some (k0, v0) := by
          unfold tStep
          rw [if_neg hobj, if_neg hid]
        rw [hstep]
        dsimp only
        simp only [hasKeyDeepPairs]
        rw [ih hok' hrec']
        simp [hid, hasKeyDeep_scalar _ _ (by simpa using hobj)]

theorem hkd_arr (rec : JVal → JVal) (xs : List JVal) :
    (∀ x ∈ xs, x.isObject = true → hasKeyDeep "id" (rec x) = false) →
    hasKeyDeepList "id" (transArr rec xs) = false := by
  induction xs with
  | nil => intro _; rfl
  | cons y xs ih =>
    intro hrec
    simp only [transArr]
    simp only [hasKeyDeepList]
    rw [ih (fun x hx => hrec x (List.mem_cons_of_mem _ hx))]
    by_cases hobj : y.isObject = true
    · rw [if_pos hobj]
      simp [hrec y (List.mem_cons_self _ _) hobj]
    · rw [if_neg hobj]
      simp [hasKeyDeep_scalar _ _ (by simpa using hobj)]

theorem jGet_some_mem (kvs : List (String × JVal)) (k : String) (v : JVal)
    (hv : jGet kvs k = some v) :
    ∃ pa, pa ∈ kvs ∧ pa.1 = k ∧ pa.2 = v := by
  unfold jGet at hv
  rcases hfind : kvs.find? (fun p => p.1 = k) with _ | pa
  · rw [hfind] at hv
    cases hv
  · rw [hfind] at hv
    refine ⟨pa, List.mem_of_find?_eq_some hfind, ?_, ?_⟩
    · have := List.find?_some hfind
      simpa using this
    · simpa using hv

theorem jEqvListF_trans (rec : JVal → JVal) (m' : Nat) (xs : List JVal) :
    (∀ x ∈ xs, x.isObject = true →
      jEqvF m' (rec x) (specRenameIds x) = true) →
    (∀ x ∈ xs, jSize x ≤ m') →
    jEqvListF (jEqvF m') (transArr rec xs) (specRenameList xs) = true := by
  induction xs with
  | nil => intro _ _; rfl
  | cons y xs ih =>
    intro hrec hsz
    simp only [transArr, specRenameList, jEqvListF]
    rw [Bool.and_eq_true]
    constructor
    · by_cases hobj : y.isObject = true
      · rw [if_pos hobj]
        exact hrec y (List.mem_cons_self _ _) hobj
      · rw [if_neg hobj]
        rw [specRenameIds_scalar y (by simpa using hobj)]
        exact jEqvF_refl_scalar m' y (by simpa using hobj)
          (le_trans (jSize_pos y) (hsz y (List.mem_cons_self _ _)))
    · exact ih (fun x hx => hrec x (List.mem_cons_of_mem _ hx))
        (fun x hx => hsz x (List.mem_cons_of_mem _ hx))

theorem jEqvF_obj_trans (rec : JVal → JVal) (m' : Nat)
    (kvs : List (String × JVal))
    (hmidf : "medusa_id" ∉ kvs.map (fun p => p.1))
    (hsc : ∀ p ∈ kvs, p.1 = "id" → p.2.isObject = false)
    (hrec : ∀ p ∈ kvs, p.2.isObject = true →
      jEqvF m' (rec p.2) (specRenameIds p.2) = true)
    (hms : ∀ p ∈ kvs, jSize p.2 ≤ m') :
    jEqvF (m' + 1) (.obj (kvs.filterMap (tStep rec) ++ tApp kvs))
      (.obj (specRenamePairs kvs)) = true := by
  have hfmnomid : ∀ p ∈ kvs.filterMap (tStep rec),
      ¬(p.1 = "medusa_id") := by
    intro p hp hpk
    apply hmidf
    rw [← hpk]
    exact fm_keys_sub rec kvs p hp
  simp only [jEqvF]
  rw [Bool.and_eq_true]
  constructor
  · rw [List.all_eq_true]
    intro k hk
    rw [List.map_append, List.mem_append] at hk
    rcases hk with hk | hk
    · have hkid : ¬(k = "id") := by
        intro h
        subst h
        rcases List.mem_map.mp hk with ⟨p, hp, hp1⟩
        exact fm_key_ne_id rec kvs hsc p hp hp1
      have hkmid : ¬(k = "medusa_id") := by
        intro h
        subst h
        rcases List.mem_map.mp hk with ⟨p, hp, hp1⟩
        apply hmidf
        rw [← hp1]
        exact fm_keys_sub rec kvs p hp
      have h1 : (jGet (kvs.filterMap (tStep rec)) k).isSome = true :=
        (mem_keys_isSome _ _).mp hk
      rw [jGet_fm_ne rec kvs k hkid] at h1
      rcases hv : jGet kvs k with _ | v
      · rw [hv] at h1
        cases h1
      · have hL1 : jGet (kvs.filterMap (tStep rec) ++ tApp kvs) k =
            some (if v.isObject = true then rec v else v) := by
          apply jGet_append_some
          rw [jGet_fm_ne rec kvs k hkid, hv]
          rfl
        have hL2 : jGet (specRenamePairs kvs) k =
            some (specRenameIds v) := by
          rw [jGet_spec_ne kvs k hkid hkmid, hv]
          rfl
        rw [hL1, hL2]
        obtain ⟨pa, hpa, hpa1, hpa2⟩ := jGet_some_mem kvs k v hv
        by_cases hobj : v.isObject = true
        · rw [if_pos hobj]
          have := hrec pa hpa (by rw [hpa2]; exact hobj)
          rw [hpa2] at this
          exact this
        · rw [if_neg hobj]
          rw [specRenameIds_scalar v (by simpa using hobj)]
          refine jEqvF_refl_scalar m' v (by simpa using hobj) ?_
          have := hms pa hpa
          rw [hpa2] at this
          exact le_trans (jSize_pos v) this
    · rcases List.mem_map.mp hk with ⟨p, hp, hp1⟩
      have hkmid : k = "medusa_id" := by
        rw [← hp1]
        exact tApp_keys kvs p hp
      subst hkmid
      have htm : (jGet (tApp kvs) "medusa_id").isSome = true :=
        (mem_keys_isSome _ _).mp (by
          rw [← hp1]
          exact List.mem_map_of_mem _ hp)
      rw [jGet_tApp_mid kvs hsc] at htm
      rcases hv : jGet kvs "id" with _ | idv
      · rw [hv] at htm
        cases htm
      · obtain ⟨pa, hpa, hpa1, hpa2⟩ := jGet_some_mem kvs "id" idv hv
        have hvscalar : idv.isObject = false := by
          have := hsc pa hpa hpa1
          rw [hpa2] at this
          exact this
        have hL1 : jGet (kvs.filterMap (tStep rec) ++ tApp kvs)
            "medusa_id" = some idv := by
          rw [jGet_append_left _ _ _ hfmnomid]
          rw [jGet_tApp_mid kvs hsc, hv]
        have hL2 : jGet (specRenamePairs kvs) "medusa_id" =
            some (specRenameIds idv) := by
          rw [jGet_spec_mid kvs hmidf, hv]
          rfl
        rw [hL1, hL2]
        rw [specRenameIds_scalar idv hvscalar]
        refine jEqvF_refl_scalar m' idv hvscalar ?_
        have := hms pa hpa
        rw [hpa2] at this
        exact le_trans (jSize_pos idv) this
  · rw [List.all_eq_true]
    intro k hk
    rw [spec_keys] at hk
    rcases List.mem_map.mp hk with ⟨q, hq, hfq⟩
    by_cases hid : q.1 = "id"
    · rw [if_pos hid] at hfq
      subst hfq
      have hL1 : jGet (kvs.filterMap (tStep rec) ++ tApp kvs)
          "medusa_id" = jGet kvs "id" := by
        rw [jGet_append_left _ _ _ hfmnomid]
        exact jGet_tApp_mid kvs hsc
      have hsome : (jGet kvs "id").isSome = true :=
        (mem_keys_isSome kvs "id").mp (by
          rw [← hid]
          exact List.mem_map_of_mem _ hq)
      rw [hL1]
      exact hsome
    · rw [if_neg hid] at hfq
      subst hfq
      have hsome : (jGet kvs q.1).isSome = true :=
        (mem_keys_isSome _ _).mp (List.mem_map_of_mem _ hq)
      rcases hv : jGet kvs q.1 with _ | v
      · rw [hv] at hsome
        cases hsome
      · have hL1 : jGet (kvs.filterMap (tStep rec) ++ tApp kvs) q.1 =
            some (if v.isObject = true then rec v else v) := by
          apply jGet_append_some
          rw [jGet_fm_ne rec kvs q.1 hid, hv]
          rfl
        rw [hL1]
        rfl

/-- One nesting level of `translateIdsToMedusaIds` on a well-formed object:
the snapshot loop keeps every binding in place (translating object values),
drops the scalar `"id"` binding and appends its value at the end under
`"medusa_id"`. -/
theorem transFuel_obj (n : Nat) (kvs : List (String × JVal))
    (hok : payloadOk (.obj kvs) = true) :
    transFuel (n + 1) (.obj kvs) =
      .obj (kvs.filterMap (tStep (transFuel n)) ++ tApp kvs) := by
  unfold payloadOk at hok
  rw [Bool.and_eq_true, Bool.and_eq_true] at hok
  obtain ⟨⟨hdist, hmidc⟩, hpairs⟩ := hok
  have hnd : (kvs.map (fun p => p.1)).Nodup := keysDistinct_to_nodup _ hdist
  have hmidf : "medusa_id" ∉ kvs.map (fun p => p.1) := by
    intro h
    have hcont : (kvs.map (fun p => p.1)).contains "medusa_id" = true := by
      simpa using h
    rw [hcont] at hmidc
    simp at hmidc
  have hsc : ∀ p ∈ kvs, p.1 = "id" → p.2.isObject = false :=
    fun p hp => (payloadOkPairs_mem kvs hpairs p hp).2
  show JVal.obj (transLoop (transFuel n) (kvs.map (fun p => p.1)) kvs) = _
  have hchar := transLoop_char (transFuel n) kvs [] [] (by simpa using hnd)
    (fun _ => by simpa using hmidf) hsc
  simp only [List.nil_append, List.append_nil] at hchar
  rw [hchar]

/-- The fuelled `translateIdsToMedusaIds` on a well-formed payload: no
`"id"` key survives anywhere in the result, and the result is equivalent
(as an order-insensitive JSON document, under any sufficient fuel) to the
spec-side recursive rename of every `"id"` key to `"medusa_id"`. -/
theorem transFuel_renames (n : Nat) :
    ∀ v : JVal, payloadOk v = true → jSize v ≤ n →
    hasKeyDeep "id" (transFuel n v) = false ∧
    ∀ m, jSize v ≤ m → jEqvF m (transFuel n v) (specRenameIds v) = true := by
  induction n using Nat.strong_induction_on with
  | _ n ih =>
    intro v hok hsz
    cases v with
    | obj kvs =>
      have hsz1 : 1 + jSizePairs kvs ≤ n := hsz
      obtain ⟨n', rfl⟩ : ∃ n', n = n' + 1 := ⟨n - 1, by omega⟩
      have hsp : jSizePairs kvs ≤ n' := by omega
      rw [transFuel_obj n' kvs hok]
      unfold payloadOk at hok
      rw [Bool.and_eq_true, Bool.and_eq_true] at hok
      obtain ⟨⟨hdist, hmidc⟩, hpairs⟩ := hok
      have hmidf : "medusa_id" ∉ kvs.map (fun p => p.1) := by
        intro h
        have hcont : (kvs.map (fun p => p.1)).contains "medusa_id" = true := by
          simpa using h
        rw [hcont] at hmidc
        simp at hmidc
      have hsc : ∀ p ∈ kvs, p.1 = "id" → p.2.isObject = false :=
        fun p hp => (payloadOkPairs_mem kvs hpairs p hp).2
      have hrecall : ∀ p ∈ kvs, p.2.isObject = true →
          (hasKeyDeep "id" (transFuel n' p.2) = false ∧
           ∀ m, jSize p.2 ≤ m →
             jEqvF m (transFuel n' p.2) (specRenameIds p.2) = true) := by
        intro p hp _
        exact ih n' (by omega) p.2 (payloadOkPairs_mem kvs hpairs p hp).1
          (le_trans (jSizePairs_mem kvs p hp) hsp)
      constructor
      · show hasKeyDeepPairs "id"
          (kvs.filterMap (tStep (transFuel n')) ++ tApp kvs) = false
        rw [hasKeyDeepPairs_append]
        rw [hkd_fm (transFuel n') kvs hpairs
          (fun p hp ho => (hrecall p hp ho).1), hkd_tApp]
        rfl
      · intro m hm
        have hm1 : 1 + jSizePairs kvs ≤ m := hm
        obtain ⟨m', rfl⟩ : ∃ m', m = m' + 1 := ⟨m - 1, by omega⟩
        show jEqvF (m' + 1)
          (.obj (kvs.filterMap (tStep (transFuel n')) ++ tApp kvs))
          (.obj (specRenamePairs kvs)) = true
        exact jEqvF_obj_trans (transFuel n') m' kvs hmidf hsc
          (fun p hp ho => (hrecall p hp ho).2 m'
            (le_trans (jSizePairs_mem kvs p hp) (by omega)))
          (fun p hp => le_trans (jSizePairs_mem kvs p hp) (by omega))
    | arr xs =>
      have hsz1 : 1 + jSizeList xs ≤ n := hsz
      obtain ⟨n', rfl⟩ : ∃ n', n = n' + 1 := ⟨n - 1, by omega⟩
      have hxs : ∀ x ∈ xs, payloadOk x = true := payloadOkList_mem xs hok
      have hrecall : ∀ x ∈ xs, x.isObject = true →
          (hasKeyDeep "id" (transFuel n' x) = false ∧
           ∀ m, jSize x ≤ m →
             jEqvF m (transFuel n' x) (specRenameIds x) = true) := by
        intro x hx _
        exact ih n' (by omega) x (hxs x hx)
          (le_trans (jSizeList_mem xs x hx) (by omega))
      constructor
      · show hasKeyDeepList "id" (transArr (transFuel n') xs) = false
        exact hkd_arr (transFuel n') xs (fun x hx ho => (hrecall x hx ho).1)
      · intro m hm
        have hm1 : 1 + jSizeList xs ≤ m := hm
        obtain ⟨m', rfl⟩ : ∃ m', m = m' + 1 := ⟨m - 1, by omega⟩
        show jEqvListF (jEqvF m') (transArr (transFuel n') xs)
          (specRenameList xs) = true
        exact jEqvListF_trans (transFuel n') m' xs
          (fun x hx ho => (hrecall x hx ho).2 m'
            (le_trans (jSizeList_mem xs x hx) (by omega)))
          (fun x hx => le_trans (jSizeList_mem xs x hx) (by omega))
    | str s =>
      rw [transFuel_scalar n (.str s) rfl]
      refine ⟨rfl, ?_⟩
      intro m hm
      rw [specRenameIds_scalar (.str s) rfl]
      exact jEqvF_refl_scalar m (.str s) rfl (le_trans (jSize_pos _) hm)
    | num i =>
      rw [transFuel_scalar n (.num i) rfl]
      refine ⟨rfl, ?_⟩
      intro m hm
      rw [specRenameIds_scalar (.num i) rfl]
      exact jEqvF_refl_scalar m (.num i) rfl (le_trans (jSize_pos _) hm)
    | bool b =>
      rw [transFuel_scalar n (.bool b) rfl]
      refine ⟨rfl, ?_⟩
      intro m hm
      rw [specRenameIds_scalar (.bool b) rfl]
      exact jEqvF_refl_scalar m (.bool b) rfl (le_trans (jSize_pos _) hm)
    | null =>
      rw [transFuel_scalar n .null rfl]
      refine ⟨rfl, ?_⟩
      intro m hm
      rw [specRenameIds_scalar .null rfl]
      exact jEqvF_refl_scalar m .null rfl (le_trans (jSize_pos _) hm)
    | undef =>
      rw [transFuel_scalar n .undef rfl]
      refine ⟨rfl, ?_⟩
      intro m hm
      rw [specRenameIds_scalar .undef rfl]
      exact jEqvF_refl_scalar m .undef rfl (le_trans (jSize_pos _) hm)

theorem translate_obj (kvs : List (String × JVal))
    (hok : payloadOk (.obj kvs) = true) :
    translateIdsToMedusaIds (.obj kvs) =
      .obj (kvs.filterMap (tStep (transFuel (jSizePairs kvs))) ++
        tApp kvs) := by
  unfold translateIdsToMedusaIds
  have h1 : jSize (.obj kvs) = jSizePairs kvs + 1 := by
    show 1 + jSizePairs kvs = jSizePairs kvs + 1
    omega
  rw [h1]
  exact transFuel_obj (jSizePairs kvs) kvs hok

theorem tApp_nil_of_no_id (kvs : List (String × JVal)) :
    (∀ p ∈ kvs, ¬(p.1 = "id")) → tApp kvs = [] := by
  induction kvs with
  | nil => intro _; rfl
  | cons q kvs ih =>
    intro h
    obtain ⟨k0, v0⟩ := q
    rw [tApp_cons_skip k0 v0 kvs
      (Or.inr (h (k0, v0) (List.mem_cons_self _ _)))]
    exact ih (fun p hp => h p (List.mem_cons_of_mem _ hp))

theorem tApp_single (kvs : List (String × JVal)) (idv : JVal) :
    (kvs.map (fun p => p.1)).Nodup →
    (∀ p ∈ kvs, p.1 = "id" → p.2.isObject = false) →
    jGet kvs "id" = some idv →
    tApp kvs = [("medusa_id", idv)] := by
  induction kvs with
  | nil =>
    intro _ _ h
    cases h
  | cons q kvs ih =>
    intro hnd hsc hid
    obtain ⟨k0, v0⟩ := q
    by_cases hk : k0 = "id"
    · have hv : v0.isObject = false :=
        hsc (k0, v0) (List.mem_cons_self _ _) hk
      rw [tApp_cons_id k0 v0 kvs hk hv]
      rw [jGet_cons_eq _ _ _ hk] at hid
      have hveq : v0 = idv := by simpa using hid
      subst hveq
      have hk0notin : k0 ∉ kvs.map (fun p => p.1) :=
        (List.nodup_cons.mp (by simpa using hnd)).1
      rw [hk] at hk0notin
      rw [tApp_nil_of_no_id kvs (notin_keys kvs "id" hk0notin)]
    · rw [tApp_cons_skip k0 v0 kvs (Or.inr hk)]
      rw [jGet_cons_ne _ _ _ hk] at hid
      exact ih (List.nodup_cons.mp (by simpa using hnd)).2
        (fun p hp => hsc p (List.mem_cons_of_mem _ hp)) hid

/-- `sendBody` on a well-formed payload that carries a top-level id: the
forced top-level `medusa_id` write and the `delete id` are no-ops on top of
the in-place translation (it already moved the id), and the transmitted
top-level `medusa_id` is exactly the domain entity's id. -/
theorem sendBody_obj (kvs : List (String × JVal)) (idv : JVal)
    (hok : payloadOk (.obj kvs) = true)
    (hid : jGet kvs "id" = some idv) :
    sendBody (.obj kvs) = translateIdsToMedusaIds (.obj kvs) ∧
    sendBody.jGet' (sendBody (.obj kvs)) "medusa_id" = some idv := by
  have hokP := hok
  unfold payloadOk at hokP
  rw [Bool.and_eq_true, Bool.and_eq_true] at hokP
  obtain ⟨⟨hdist, hmidc⟩, hpairs⟩ := hokP
  have hnd := keysDistinct_to_nodup _ hdist
  have hmidf : "medusa_id" ∉ kvs.map (fun p => p.1) := by
    intro h
    have hcont : (kvs.map (fun p => p.1)).contains "medusa_id" = true := by
      simpa using h
    rw [hcont] at hmidc
    simp at hmidc
  have hsc : ∀ p ∈ kvs, p.1 = "id" → p.2.isObject = false :=
    fun p hp => (payloadOkPairs_mem kvs hpairs p hp).2
  have htr := translate_obj kvs hok
  have htApp := tApp_single kvs idv hnd hsc hid
  have hfmnomid : ∀ p ∈ kvs.filterMap (tStep (transFuel (jSizePairs kvs))),
      ¬(p.1 = "medusa_id") := by
    intro p hp hpk
    apply hmidf
    rw [← hpk]
    exact fm_keys_sub _ kvs p hp
  have hmidget : jGet (kvs.filterMap (tStep (transFuel (jSizePairs kvs))) ++
      tApp kvs) "medusa_id" = some idv := by
    rw [jGet_append_left _ _ _ hfmnomid, htApp, jGet_cons_eq _ _ _ rfl]
  have hnoId : ∀ p ∈ kvs.filterMap (tStep (transFuel (jSizePairs kvs))) ++
      tApp kvs, ¬(p.1 = "id") := by
    intro p hp
    rcases List.mem_append.mp hp with h | h
    · exact fm_key_ne_id _ kvs hsc p h
    · intro hpk
      have := tApp_keys kvs p h
      rw [this] at hpk
      exact absurd hpk (by decide)
  have hset : objSet (kvs.filterMap (tStep (transFuel (jSizePairs kvs))) ++
      tApp kvs) "medusa_id" idv =
      kvs.filterMap (tStep (transFuel (jSizePairs kvs))) ++ tApp kvs := by
    unfold objSet
    rw [hmidget, if_pos (show (some idv).isSome = true from rfl)]
    rw [List.map_append, map_keep_of_ne _ _ _ hfmnomid, htApp]
    simp
  have hdel := filter_keep_of_ne _ "id" hnoId
  have hsb : sendBody (.obj kvs) = translateIdsToMedusaIds (.obj kvs) := by
    unfold sendBody
    rw [htr]
    dsimp only
    have hgetd : (sendBody.jGet' (.obj kvs) "id").getD .undef = idv := by
      show (jGet kvs "id").getD .undef = idv
      rw [hid]
      rfl
    rw [hgetd, hset, hdel]
  refine ⟨hsb, ?_⟩
  rw [hsb, htr]
  show jGet (kvs.filterMap (tStep (transFuel (jSizePairs kvs))) ++
    tApp kvs) "medusa_id" = some idv
  exact hmidget

/-- C8: every payload handed to an entry write through
`strapiSendDataLayer` is transmitted as `sendBody data`: the body on the
wire carries no `"id"` key at any nesting level, its top-level
`"medusa_id"` is the domain entity's original id, and the whole body is —
as an order-insensitive JSON document — the payload with every `"id"` key
renamed to `"medusa_id"`, recursively through nested objects and arrays
(for a well-formed payload: distinct keys per object, no pre-existing
`"medusa_id"`, scalar ids). -/
theorem strapiSendDataLayer_renames_ids (w : World) (st : SyncState)
    (now : Nat) (q : StrapiSendParams) (c : UserCreds)
    (kvs : List (String × JVal)) (idv : JVal)
    (hdata : q.data = some (.obj kvs))
    (hok : payloadOk (.obj kvs) = true)
    (hid : jGet kvs "id" = some idv)
    (hc : (st.userTokens.find? (fun p => p.1 = q.email)).map
      (fun p => p.2) = some c)
    (hfresh : now / 1000 - c.time / 1000 < reuseWindow st)
    (hh : HealthFresh w st now) :
    (strapiSendDataLayer w st now q).tr =
      [.entry q.method q.type_ q.id c.token
        (some (sendBody (.obj kvs)))] ∧
    hasKeyDeep "id" (sendBody (.obj kvs)) = false ∧
    sendBody.jGet' (sendBody (.obj kvs)) "medusa_id" = some idv ∧
    jEqv (sendBody (.obj kvs)) (specRenameIds (.obj kvs)) = true := by
  have hsb := sendBody_obj kvs idv hok hid
  have hmain := transFuel_renames (jSize (.obj kvs)) (.obj kvs) hok
    (le_refl _)
  refine ⟨?_, ?_, hsb.2, ?_⟩
  · rw [strapiSendDataLayer_cached w st now q c hc hfresh hh]
    cases w.rem.entry w.cnt.e <;> simp [hdata]
  · rw [hsb.1]
    exact hmain.1
  · unfold jEqv
    rw [hsb.1]
    apply hmain.2
    rw [jSize_specRename]
    omega

/-- Concrete run of `strapiSendDataLayer_renames_ids` on a nested product
payload (top-level id `"p1"`, a variant with id `"v1"`): the wire body is
`sendBody` of the payload, free of `"id"` keys, with top-level `medusa_id`
`"p1"`, and equivalent to the spec-side recursive rename. -/
theorem strapiSendDataLayer_renames_ids_witness :
    payloadOk (.obj c8Kvs) = true ∧
    ((strapiSendDataLayer okWorld cexState 1000500
        { method := .put, type_ := "products", id := some "p1",
          data := some (.obj c8Kvs), email := "svc@x" }).tr =
      [.entry .put "products" (some "p1") "T"
        (some (sendBody (.obj c8Kvs)))]) ∧
    hasKeyDeep "id" (sendBody (.obj c8Kvs)) = false ∧
    sendBody.jGet' (sendBody (.obj c8Kvs)) "medusa_id" =
      some (.str "p1") ∧
    jEqv (sendBody (.obj c8Kvs)) (specRenameIds (.obj c8Kvs)) = true := by
  have h := strapiSendDataLayer_renames_ids okWorld cexState 1000500
    { method := .put, type_ := "products", id := some "p1",
      data := some (.obj c8Kvs), email := "svc@x" }
    { token := "T", time := 1000000, user := "U" } c8Kvs (.str "p1")
    rfl rfl rfl rfl (by decide) ⟨rfl, by decide, by decide⟩
  exact ⟨rfl, h.1, h.2.1, h.2.2.1, h.2.2.2⟩

end StrapiSync
